import Mathlib

/-!
Verification of the core geometry pipeline of
`build_pakistan_hydrological_network.py` (canalytics repository).

The embedding models coordinates as exact real numbers (the Python code
computes with IEEE floats; the idealized semantics over `ℝ` is used
throughout, so every `shapely` length, distance, projection and
interpolation is the exact Euclidean quantity it approximates).

Source functions modelled here:
  - `explode_multilinestrings`  (lines 52 to 66)
  - `snap_endpoints`            (lines 68 to 118)
  - `segmentize_lines`          (lines 140 to 182)
  - `build_graph_and_csvs`      (lines 184 to 246)
  - the attribute recovery spatial join of the main block (lines 276 to 281)
together with the `shapely` primitives they call (`length`, `distance`,
`project` and `interpolate`, `shapely.ops.substring`) and the GeoPandas
spatial index query (bounding box intersection).
-/

namespace Canalytics

noncomputable section

open Classical

/-- A planar coordinate pair, longitude and latitude in degrees. -/
abbrev Point : Type := ℝ × ℝ

/-- Euclidean distance between two coordinate pairs, the exact value of the
float expression `((x2-x1)**2 + (y2-y1)**2) ** 0.5` used by shapely. -/
def dist (p q : Point) : ℝ :=
  Real.sqrt ((q.1 - p.1) ^ 2 + (q.2 - p.2) ^ 2)

/-- Linear interpolation between two points: the point at parameter `t`
along the segment from `p` to `q`. -/
def lerp (p q : Point) (t : ℝ) : Point :=
  (p.1 + t * (q.1 - p.1), p.2 + t * (q.2 - p.2))

theorem dist_nonneg (p q : Point) : 0 ≤ dist p q := Real.sqrt_nonneg _

theorem dist_eq_zero_iff (p q : Point) : dist p q = 0 ↔ p = q := by
  unfold dist
  rw [Real.sqrt_eq_zero (by positivity)]
  constructor
  · intro h
    have h1 : (q.1 - p.1) ^ 2 = 0 ∧ (q.2 - p.2) ^ 2 = 0 := by
      constructor <;> nlinarith [sq_nonneg (q.1 - p.1), sq_nonneg (q.2 - p.2)]
    have e1 : q.1 = p.1 := by nlinarith [h1.1]
    have e2 : q.2 = p.2 := by nlinarith [h1.2]
    exact Prod.ext e1.symm e2.symm
  · rintro rfl; ring

theorem dist_pos_of_ne {p q : Point} (h : p ≠ q) : 0 < dist p q := by
  rcases lt_or_eq_of_le (dist_nonneg p q) with h' | h'
  · exact h'
  · exact absurd ((dist_eq_zero_iff p q).mp h'.symm) h

@[simp] theorem lerp_zero (p q : Point) : lerp p q 0 = p := by
  simp [lerp]

@[simp] theorem lerp_one (p q : Point) : lerp p q 1 = q := by
  simp [lerp]

@[simp] theorem lerp_self (p : Point) (t : ℝ) : lerp p p t = p := by
  simp [lerp]

/-- Distance between two points on the same segment is the parameter gap
times the segment length. -/
theorem dist_lerp_lerp (p q : Point) (s t : ℝ) :
    dist (lerp p q s) (lerp p q t) = |t - s| * dist p q := by
  unfold dist lerp
  have h1 : (p.1 + t * (q.1 - p.1)) - (p.1 + s * (q.1 - p.1)) = (t - s) * (q.1 - p.1) := by ring
  have h2 : (p.2 + t * (q.2 - p.2)) - (p.2 + s * (q.2 - p.2)) = (t - s) * (q.2 - p.2) := by ring
  simp only [h1, h2]
  rw [show ((t - s) * (q.1 - p.1)) ^ 2 + ((t - s) * (q.2 - p.2)) ^ 2
        = (t - s) ^ 2 * ((q.1 - p.1) ^ 2 + (q.2 - p.2) ^ 2) by ring,
      Real.sqrt_mul (sq_nonneg _), Real.sqrt_sq_eq_abs]

theorem dist_lerp_right (p q : Point) (t : ℝ) :
    dist (lerp p q t) q = |1 - t| * dist p q := by
  have := dist_lerp_lerp p q t 1
  simpa using this

theorem dist_lerp_left (p q : Point) (t : ℝ) :
    dist p (lerp p q t) = |t| * dist p q := by
  have := dist_lerp_lerp p q 0 t
  simpa using this

/-- Composing interpolations: a point at parameter `t` of the segment from
`lerp p q s` to `q` lies at parameter `s + t * (1 - s)` of `p q`. -/
theorem lerp_lerp_right (p q : Point) (s t : ℝ) :
    lerp (lerp p q s) q t = lerp p q (s + t * (1 - s)) := by
  unfold lerp
  refine Prod.ext ?_ ?_ <;> dsimp <;> ring

/-- Composing interpolations: a point at parameter `t` of the segment from
`p` to `lerp p q s` lies at parameter `t * s` of `p q`. -/
theorem lerp_lerp_left (p q : Point) (s t : ℝ) :
    lerp p (lerp p q s) t = lerp p q (t * s) := by
  unfold lerp
  refine Prod.ext ?_ ?_ <;> dsimp <;> ring

/-- Interpolation between two points of a common segment stays on it:
the point at parameter `u` of the chord from `lerp p q s` to `lerp p q t`
is `lerp p q (s + u * (t - s))`. -/
theorem lerp_lerp_pair (p q : Point) (s t u : ℝ) :
    lerp (lerp p q s) (lerp p q t) u = lerp p q (s + u * (t - s)) := by
  unfold lerp
  refine Prod.ext ?_ ?_ <;> dsimp <;> ring

/-- Length of a polyline: the sum of the Euclidean lengths of its edges,
shapely `geom.length`. -/
def polyLength : List Point → ℝ
  | p :: q :: rest => dist p q + polyLength (q :: rest)
  | _ => 0

theorem polyLength_nonneg (cs : List Point) : 0 ≤ polyLength cs := by
  induction cs with
  | nil => simp [polyLength]
  | cons p rest ih =>
    cases rest with
    | nil => simp [polyLength]
    | cons q rest' =>
      simp only [polyLength]
      have := dist_nonneg p q
      have := ih
      linarith [ih]

/-- Point of a polyline at arc length `d`, the walk performed by shapely
`geom.interpolate(d)` for `d ≥ 0`: advance edge by edge, interpolate on
the edge containing `d`, and clamp to the final vertex when `d` exceeds
the total length. -/
def interp : List Point → ℝ → Point
  | [], _ => (0, 0)
  | [p], _ => p
  | p :: q :: rest, d =>
    if d ≤ dist p q then lerp p q (d / dist p q)
    else interp (q :: rest) (d - dist p q)

theorem interp_cons_zero (c : Point) (l : List Point) : interp (c :: l) 0 = c := by
  cases l with
  | nil => rfl
  | cons q rest =>
    simp only [interp]
    rw [if_pos (dist_nonneg c q)]
    simp

/-- Walking past a fully consumed first edge. -/
theorem interp_tail_of_le {p q : Point} {rest : List Point} {a : ℝ}
    (h : dist p q ≤ a) :
    interp (p :: q :: rest) a = interp (q :: rest) (a - dist p q) := by
  rcases lt_or_eq_of_le h with h' | h'
  · simp only [interp]
    rw [if_neg (not_le.mpr h')]
  · rcases eq_or_lt_of_le (dist_nonneg p q) with h0 | h0
    · have hpq : p = q := (dist_eq_zero_iff p q).mp h0.symm
      simp only [interp]
      rw [if_pos (le_of_eq h'.symm), ← h', ← h0]
      subst hpq
      simp [interp_cons_zero]
    · simp only [interp]
      rw [if_pos (le_of_eq h'.symm), ← h']
      rw [div_self (ne_of_gt h0), lerp_one, sub_self, interp_cons_zero]

/-- Vertices of the source polyline collected by the loop of
`shapely.ops.substring`: walking pairs of consecutive vertices with the
running arc length `cur`, the first vertex of a pair is kept when
`a < cur < b`, and the loop stops once `cur ≥ b`. -/
def midVerts : List Point → ℝ → ℝ → ℝ → List Point
  | p :: q :: rest, cur, a, b =>
    if a < cur ∧ cur < b then p :: midVerts (q :: rest) (cur + dist p q) a b
    else if b ≤ cur then []
    else midVerts (q :: rest) (cur + dist p q) a b
  | _, _, _, _ => []

/-- Vertex list produced by `shapely.ops.substring(geom, a, b)` in the
regime `0 ≤ a < b ≤ length` used by `segmentize_lines`: the interpolated
start point, the original vertices strictly inside the arc length window,
and the interpolated end point. -/
def substringCoords (cs : List Point) (a b : ℝ) : List Point :=
  interp cs a :: midVerts cs 0 a b ++ [interp cs b]

/-- Shifting the running arc length is the same as shifting the window. -/
theorem midVerts_shift (cs : List Point) :
    ∀ c a b t : ℝ, midVerts cs (c + t) a b = midVerts cs c (a - t) (b - t) := by
  induction cs with
  | nil => intro c a b t; rfl
  | cons p rest ih =>
    cases rest with
    | nil => intro c a b t; rfl
    | cons q rest' =>
      intro c a b t
      simp only [midVerts]
      by_cases h1 : a < c + t ∧ c + t < b
      · have h1' : a - t < c ∧ c < b - t := ⟨by linarith [h1.1], by linarith [h1.2]⟩
        rw [if_pos h1, if_pos h1',
          show c + t + dist p q = c + dist p q + t by ring, ih]
      · have h1' : ¬(a - t < c ∧ c < b - t) := by
          intro hc
          exact h1 ⟨by linarith [hc.1], by linarith [hc.2]⟩
        rw [if_neg h1, if_neg h1']
        by_cases h2 : b ≤ c + t
        · rw [if_pos h2, if_pos (show b - t ≤ c by linarith)]
        · rw [if_neg h2, if_neg (show ¬(b - t ≤ c) by intro hc; exact h2 (by linarith)),
            show c + t + dist p q = c + dist p q + t by ring, ih]

/-- When the lower window bound is already strictly below the running arc
length, its exact value does not matter. -/
theorem midVerts_lt_start (cs : List Point) :
    ∀ c a a' b : ℝ, a < c → a' < c → midVerts cs c a b = midVerts cs c a' b := by
  induction cs with
  | nil => intro c a a' b _ _; rfl
  | cons p rest ih =>
    cases rest with
    | nil => intro c a a' b _ _; rfl
    | cons q rest' =>
      intro c a a' b ha ha'
      simp only [midVerts]
      by_cases hb : c < b
      · rw [if_pos ⟨ha, hb⟩, if_pos ⟨ha', hb⟩,
          ih (c + dist p q) a a' b (by linarith [dist_nonneg p q])
            (by linarith [dist_nonneg p q])]
      · have hn1 : ¬(a < c ∧ c < b) := fun hc => hb hc.2
        have hn2 : ¬(a' < c ∧ c < b) := fun hc => hb hc.2
        rw [if_neg hn1, if_neg hn2, if_pos (not_lt.mp hb), if_pos (not_lt.mp hb)]

theorem substringCoords_head (cs : List Point) (a b : ℝ) :
    (substringCoords cs a b).head? = some (interp cs a) := rfl

theorem substringCoords_getLast (cs : List Point) (a b : ℝ) :
    (substringCoords cs a b).getLast? = some (interp cs b) := by
  unfold substringCoords
  rw [show interp cs a :: midVerts cs 0 a b ++ [interp cs b]
        = (interp cs a :: midVerts cs 0 a b) ++ [interp cs b] from rfl,
    List.getLast?_concat]

/-- Core substring correctness: on the arc length window `[a, b]` the
substring of a polyline, reparametrized from `a`, passes through exactly
the same points as the original polyline (stated for polylines without
zero length edges). -/
theorem interp_substringCoords :
    ∀ (cs : List Point) (a b d : ℝ), List.Chain' (· ≠ ·) cs →
      0 ≤ a → a < b → b ≤ polyLength cs → a ≤ d → d ≤ b →
      interp (substringCoords cs a b) (d - a) = interp cs d := by
  intro cs
  induction cs with
  | nil =>
    intro a b d _ ha hab hb _ _
    exfalso
    simp only [polyLength] at hb
    linarith
  | cons p rest ih =>
    cases rest with
    | nil =>
      intro a b d _ ha hab hb _ _
      exfalso
      simp only [polyLength] at hb
      linarith
    | cons q rest' =>
      intro a b d hch ha hab hb had hdb
      have hplen : polyLength (p :: q :: rest') = dist p q + polyLength (q :: rest') := by
        simp only [polyLength]
      by_cases hbD : b ≤ dist p q
      · -- window inside the first edge
        have hb0 : 0 < b := lt_of_le_of_lt ha hab
        have hD0 : 0 < dist p q := lt_of_lt_of_le hb0 hbD
        have haD : a ≤ dist p q := le_trans (le_of_lt hab) hbD
        have hmid : midVerts (p :: q :: rest') 0 a b = [] := by
          simp only [midVerts]
          rw [if_neg (fun hc => absurd hc.1 (not_lt.mpr ha)), if_neg (not_le.mpr hb0)]
          cases rest' with
          | nil => rfl
          | cons r rest'' =>
            simp only [midVerts]
            rw [if_neg (fun hc => absurd hc.2 (by intro h2; linarith)),
              if_pos (by linarith)]
        have hsub : substringCoords (p :: q :: rest') a b
            = [lerp p q (a / dist p q), lerp p q (b / dist p q)] := by
          unfold substringCoords
          rw [hmid]
          have e1 : interp (p :: q :: rest') a = lerp p q (a / dist p q) := by
            simp only [interp]
            rw [if_pos haD]
          have e3 : interp (p :: q :: rest') b = lerp p q (b / dist p q) := by
            simp only [interp]
            rw [if_pos hbD]
          rw [e1, e3]
          rfl
        rw [hsub]
        have hdxy : dist (lerp p q (a / dist p q)) (lerp p q (b / dist p q)) = b - a := by
          rw [dist_lerp_lerp]
          rw [show b / dist p q - a / dist p q = (b - a) / dist p q by ring,
            abs_of_nonneg (by
              have hba : (0:ℝ) ≤ b - a := by linarith
              positivity)]
          field_simp
        have hstep : interp [lerp p q (a / dist p q), lerp p q (b / dist p q)] (d - a)
            = if d - a ≤ dist (lerp p q (a / dist p q)) (lerp p q (b / dist p q)) then
                lerp (lerp p q (a / dist p q)) (lerp p q (b / dist p q))
                  ((d - a) / dist (lerp p q (a / dist p q)) (lerp p q (b / dist p q)))
              else interp [lerp p q (b / dist p q)]
                ((d - a) - dist (lerp p q (a / dist p q)) (lerp p q (b / dist p q))) := rfl
        rw [hstep, hdxy, if_pos (by linarith), lerp_lerp_pair]
        have hrhs : interp (p :: q :: rest') d = lerp p q (d / dist p q) := by
          simp only [interp]
          rw [if_pos (by linarith)]
        rw [hrhs]
        have hparam : a / dist p q + (d - a) / (b - a) * (b / dist p q - a / dist p q)
            = d / dist p q := by
          have hba : b - a ≠ 0 := ne_of_gt (by linarith)
          field_simp
          try ring
        rw [hparam]
      · -- the window extends beyond the first edge
        have hDb : dist p q < b := not_le.mp hbD
        have hpq : p ≠ q := (List.chain'_cons.mp hch).1
        have hch' : List.Chain' (· ≠ ·) (q :: rest') := (List.chain'_cons.mp hch).2
        have hD0 : 0 < dist p q := dist_pos_of_ne hpq
        rw [hplen] at hb
        by_cases haD : dist p q ≤ a
        · -- the whole window lies beyond the first edge
          have hsub : substringCoords (p :: q :: rest') a b
              = substringCoords (q :: rest') (a - dist p q) (b - dist p q) := by
            unfold substringCoords
            have e1 : interp (p :: q :: rest') a = interp (q :: rest') (a - dist p q) :=
              interp_tail_of_le haD
            have e3 : interp (p :: q :: rest') b = interp (q :: rest') (b - dist p q) :=
              interp_tail_of_le (le_of_lt hDb)
            have e2 : midVerts (p :: q :: rest') 0 a b
                = midVerts (q :: rest') 0 (a - dist p q) (b - dist p q) := by
              simp only [midVerts]
              rw [if_neg (fun hc => absurd hc.1 (not_lt.mpr ha)),
                if_neg (not_le.mpr (by linarith)),
                midVerts_shift (q :: rest') 0 a b (dist p q)]
            rw [e1, e2, e3]
          rw [hsub, show d - a = (d - dist p q) - (a - dist p q) by ring,
            ih (a - dist p q) (b - dist p q) (d - dist p q) hch' (by linarith)
              (by linarith) (by linarith) (by linarith) (by linarith)]
          exact (interp_tail_of_le (le_trans haD had)).symm
        · -- the window starts inside the first edge and ends beyond it
          have haD' : a < dist p q := not_le.mp haD
          cases rest' with
          | nil =>
            exfalso
            simp only [polyLength] at hb
            linarith
          | cons r rest'' =>
            have hqr : q ≠ r := (List.chain'_cons.mp hch').1
            have hqr0 : 0 < dist q r := dist_pos_of_ne hqr
            have hS : substringCoords (p :: q :: r :: rest'') a b
                = lerp p q (a / dist p q)
                  :: substringCoords (q :: r :: rest'') 0 (b - dist p q) := by
              have e1 : interp (p :: q :: r :: rest'') a = lerp p q (a / dist p q) := by
                simp only [interp]
                rw [if_pos (le_of_lt haD')]
              have e3 : interp (p :: q :: r :: rest'') b
                  = interp (q :: r :: rest'') (b - dist p q) :=
                interp_tail_of_le (le_of_lt hDb)
              have e2 : midVerts (p :: q :: r :: rest'') 0 a b
                  = q :: midVerts (q :: r :: rest'') 0 0 (b - dist p q) := by
                conv_lhs => simp only [midVerts]
                rw [if_neg (fun hc => absurd hc.1 (not_lt.mpr ha)),
                  if_neg (not_le.mpr (by linarith)),
                  if_pos (⟨by linarith, by linarith⟩ :
                    a < 0 + dist p q ∧ 0 + dist p q < b)]
                conv_rhs => simp only [midVerts]
                rw [if_neg (by intro hc; exact absurd hc.1 (lt_irrefl 0)),
                  if_neg (not_le.mpr (by linarith)),
                  show 0 + dist p q + dist q r = 0 + dist q r + dist p q by ring,
                  midVerts_shift (r :: rest'') (0 + dist q r) a b (dist p q),
                  midVerts_lt_start (r :: rest'') (0 + dist q r) (a - dist p q) 0
                    (b - dist p q) (by linarith) (by linarith)]
              unfold substringCoords
              rw [e1, e2, e3, interp_cons_zero]
              exact List.cons_append _ _ _
            rw [hS]
            have hhead : substringCoords (q :: r :: rest'') 0 (b - dist p q)
                = q :: (midVerts (q :: r :: rest'') 0 0 (b - dist p q)
                    ++ [interp (q :: r :: rest'') (b - dist p q)]) := by
              unfold substringCoords
              rw [interp_cons_zero]
              exact List.cons_append _ _ _
            rw [hhead]
            have hstep : interp (lerp p q (a / dist p q)
                  :: q :: (midVerts (q :: r :: rest'') 0 0 (b - dist p q)
                    ++ [interp (q :: r :: rest'') (b - dist p q)])) (d - a)
                = if d - a ≤ dist (lerp p q (a / dist p q)) q then
                    lerp (lerp p q (a / dist p q)) q
                      ((d - a) / dist (lerp p q (a / dist p q)) q)
                  else interp (q :: (midVerts (q :: r :: rest'') 0 0 (b - dist p q)
                    ++ [interp (q :: r :: rest'') (b - dist p q)]))
                    ((d - a) - dist (lerp p q (a / dist p q)) q) := rfl
            have hdistxq : dist (lerp p q (a / dist p q)) q = dist p q - a := by
              rw [dist_lerp_right, abs_of_nonneg (by
                  rw [sub_nonneg]
                  exact div_le_one_of_le₀ (le_of_lt haD') (le_of_lt hD0))]
              field_simp
            rw [hstep, hdistxq]
            by_cases hdD : d ≤ dist p q
            · rw [if_pos (by linarith), lerp_lerp_right]
              have hrhs : interp (p :: q :: r :: rest'') d = lerp p q (d / dist p q) := by
                simp only [interp]
                rw [if_pos hdD]
              rw [hrhs]
              have hparam : a / dist p q
                  + (d - a) / (dist p q - a) * (1 - a / dist p q) = d / dist p q := by
                have hDa : dist p q - a ≠ 0 := ne_of_gt (by linarith)
                field_simp
                try ring
              rw [hparam]
            · have hDd : dist p q < d := not_le.mp hdD
              rw [if_neg (by intro hc; linarith),
                show (d - a) - (dist p q - a) = d - dist p q by ring, ← hhead]
              have := ih 0 (b - dist p q) (d - dist p q) hch' le_rfl (by linarith)
                (by linarith) (by linarith) (by linarith)
              rw [sub_zero] at this
              rw [this]
              exact (interp_tail_of_le (le_of_lt hDd)).symm

/-- A single line feature as manipulated by the pipeline after exploding:
the channel name attribute and an optional LineString geometry (a row of
a GeoDataFrame whose geometry may be missing). A valid shapely
LineString has zero or at least two coordinates, never exactly one. -/
structure LineRow where
  river_name : String
  geometry : Option (List Point)

/-- A raw input geometry: a simple line, a multi part line, or any other
geometry type (which `explode_multilinestrings` ignores). -/
inductive GeomVal where
  | lineString (coords : List Point)
  | multiLineString (parts : List (List Point))
  | otherGeom

/-- A feature of the raw input collection: the `name_en` attribute (an
absent value is read back through a default) and an optional geometry. -/
structure RawRow where
  name_en : Option String
  geometry : Option GeomVal

/-- Line parts contributed by one raw feature, following the branches of
the loop of `explode_multilinestrings` (source lines 56 to 65): a missing
geometry contributes nothing, a MultiLineString contributes each of its
parts, a LineString contributes itself, and any other geometry type
contributes nothing. -/
def explodeRow (r : RawRow) : List LineRow :=
  match r.geometry with
  | none => []
  | some (GeomVal.multiLineString parts) =>
      parts.map fun cs => { river_name := r.name_en.getD "Unknown", geometry := some cs }
  | some (GeomVal.lineString cs) =>
      [{ river_name := r.name_en.getD "Unknown", geometry := some cs }]
  | some GeomVal.otherGeom => []

/-- Model of `explode_multilinestrings` (source lines 52 to 66). -/
def explode_multilinestrings (rows : List RawRow) : List LineRow :=
  rows.flatMap explodeRow

/-- The line parts of a raw input feature, used to state vertex
preservation. -/
def rawLineParts (r : RawRow) : List (List Point) :=
  match r.geometry with
  | none => []
  | some (GeomVal.multiLineString parts) => parts
  | some (GeomVal.lineString cs) => [cs]
  | some GeomVal.otherGeom => []

/-- Bounding box of a list of coordinates, `none` for the empty list
(GeoPandas does not index missing or empty geometries). -/
def bbox? : List Point → Option (Point × Point)
  | [] => none
  | p :: rest =>
    match bbox? rest with
    | none => some (p, p)
    | some (lo, hi) =>
        some ((min p.1 lo.1, min p.2 lo.2), (max p.1 hi.1, max p.2 hi.2))

/-- Intersection test between the bounding box of a candidate geometry
and the bounds of the endpoint buffered by the tolerance, which is the
square of half side `tol` around `p` (the spatial index query of source
line 90; the default shapely buffer polygon touches the four axis
extremes, so its bounds are exactly this square). -/
def bboxHit (g : Option (List Point)) (p : Point) (tol : ℝ) : Prop :=
  match g with
  | none => False
  | some cs =>
    match bbox? cs with
    | none => False
    | some lohi =>
        lohi.1.1 ≤ p.1 + tol ∧ p.1 - tol ≤ lohi.2.1
          ∧ lohi.1.2 ≤ p.2 + tol ∧ p.2 - tol ≤ lohi.2.2

/-- Candidate indices returned by the spatial index query of source line
90, modelled as all row indices whose geometry bounding box meets the
query rectangle, in ascending order (the spatial index returns them in
an unspecified order; only tie breaking among equal minima depends on
it). -/
def candidateIdx (rows : List LineRow) (p : Point) (tol : ℝ) : List ℕ :=
  (List.range rows.length).filter fun j =>
    decide (bboxHit ((rows[j]?).bind fun r => r.geometry) p tol)

/-- Closest point to `p` on the segment from `a` to `b`: the clamped
orthogonal projection (the GEOS nearest point computation behind
`distance`, `project` and `interpolate`). For a degenerate segment the
parameter divides by zero, giving `a`. -/
def closestPtSeg (p a b : Point) : Point :=
  lerp a b (min 1 (max 0
    (((p.1 - a.1) * (b.1 - a.1) + (p.2 - a.2) * (b.2 - a.2))
      / ((b.1 - a.1) ^ 2 + (b.2 - a.2) ^ 2))))

/-- Scan of the segments of a polyline keeping the closest point to `p`
together with its distance, preferring the earliest segment on ties: the
GEOS computation behind `line.distance(point)` and behind the
`line.interpolate(line.project(point))` composition, whose value in exact
arithmetic is precisely the nearest point of the line. Returns `none`
when the polyline has no segment. -/
def distScan (p : Point) : List Point → Option (ℝ × Point)
  | a :: b :: rest =>
    match distScan p (b :: rest) with
    | none => some (dist p (closestPtSeg p a b), closestPtSeg p a b)
    | some dc =>
        if dc.1 < dist p (closestPtSeg p a b) then some dc
        else some (dist p (closestPtSeg p a b), closestPtSeg p a b)
  | _ => none

/-- True point to line distance, `match_row.geometry.distance(end_point)`
of source line 99. -/
def lineDist (p : Point) (cs : List Point) : ℝ :=
  match distScan p cs with
  | some dc => dc.1
  | none => 0

/-- Nearest point of a line, the value of
`snap_target.interpolate(snap_target.project(end_point))` computed at
source lines 106 and 107. -/
def nearestPt (p : Point) (cs : List Point) : Point :=
  match distScan p cs with
  | some dc => dc.2
  | none => p

/-- One step of the candidate loop of source lines 96 to 102: skip the
line itself, skip missing geometries, skip geometries without a segment,
and keep a strictly closer candidate together with its index and
geometry (the code keeps only the geometry; the model carries the index
as well). -/
def scanStep (rows : List LineRow) (i : ℕ) (p : Point)
    (st : ℝ × Option (ℕ × List Point)) (j : ℕ) : ℝ × Option (ℕ × List Point) :=
  if j = i then st
  else
    match (rows[j]?).bind fun r => r.geometry with
    | none => st
    | some ds =>
      match distScan p ds with
      | none => st
      | some dc => if dc.1 < st.1 then (dc.1, some (j, ds)) else st

/-- The snap target selected for the line at index `i` with endpoint
`p`: the loop of source lines 93 to 102 started from
`nearest_dist = tolerance` and `snap_target = None`, run over the
spatial index candidates. -/
def chooseTarget (rows : List LineRow) (tol : ℝ) (i : ℕ) (p : Point) :
    Option (ℕ × List Point) :=
  ((candidateIdx rows p tol).foldl (scanStep rows i p) (tol, none)).2

/-- Per row behavior of the loop of `snap_endpoints` (source lines 78 to
114): missing geometry and empty coordinate lists pass through, otherwise
the last vertex may be replaced by the nearest point of the selected
target. -/
def snapRow (rows : List LineRow) (tol : ℝ) (r : LineRow) (i : ℕ) : LineRow :=
  match r.geometry with
  | none => r
  | some cs =>
    if cs.isEmpty then r
    else
      match chooseTarget rows tol i (cs.getLastD (0, 0)) with
      | none => r
      | some jds =>
          { river_name := r.river_name
            geometry := some (cs.dropLast ++ [nearestPt (cs.getLastD (0, 0)) jds.2]) }

/-- The rows of the collection processed in order with their positional
index (pandas `iterrows` over the default RangeIndex). -/
def snapRows (rows : List LineRow) (tol : ℝ) : ℕ → List LineRow → List LineRow
  | _, [] => []
  | i, r :: rest => snapRow rows tol r i :: snapRows rows tol (i + 1) rest

/-- Model of `snap_endpoints` (source lines 68 to 118) as the geometry
transform it computes. -/
def snap_endpoints (rows : List LineRow) (tol : ℝ) : List LineRow :=
  snapRows rows tol 0 rows

/-- A call of `snap_endpoints(gdf, tol)` observed from outside: the first
component is the returned frame, the second the state of the argument
object after the call. Source line 117 assigns the new geometry column in
place to the argument and line 118 returns that same object, so both
components are the transformed frame. -/
def snapEndpointsCall (rows : List LineRow) (tol : ℝ) :
    List LineRow × List LineRow :=
  (snap_endpoints rows tol, snap_endpoints rows tol)

/-- Number of segments, `int(np.ceil(line_length / interval_deg))` of
source line 168. -/
def nSegs (L T : ℝ) : ℕ := ⌈L / T⌉.toNat

/-- Per segment cut spacing, `line_length / num_segments` of source line
169. -/
def segLen (L T : ℝ) : ℝ := L / nSegs L T

/-- Segments produced for one LineString by `segmentize_lines` (source
lines 161 to 179): a line not longer than the interval is kept whole, a
longer one is cut into `nSegs` substrings between consecutive multiples
of `segLen`, with the end distance clamped to the length (source line
176). -/
def segmentizeLine (name : String) (cs : List Point) (interval_deg : ℝ) : List LineRow :=
  if polyLength cs ≤ interval_deg then [{ river_name := name, geometry := some cs }]
  else
    (List.range (nSegs (polyLength cs) interval_deg)).map fun (i : ℕ) =>
      { river_name := name
        geometry := some (substringCoords cs
          ((i : ℝ) * segLen (polyLength cs) interval_deg)
          (if polyLength cs < ((i : ℝ) + 1) * segLen (polyLength cs) interval_deg
            then polyLength cs
            else ((i : ℝ) + 1) * segLen (polyLength cs) interval_deg)) }

/-- Model of `segmentize_lines` (source lines 140 to 182): rows with a
missing or non LineString geometry are dropped, LineString rows are
expanded; the interval in degrees is `interval_km / 111`. -/
def segmentize_lines (rows : List LineRow) (interval_km : ℝ) : List LineRow :=
  rows.flatMap fun r =>
    match r.geometry with
    | none => []
    | some cs => segmentizeLine r.river_name cs (interval_km / 111)

/-- Node id quantization: the five decimal string key
`f"{x:.5f}_{y:.5f}"` of source lines 230 to 242, modelled as the pair of
coordinates rounded at the fifth decimal (exact half ties round up in
the model; no claim depends on tie behavior). -/
def quantKey (p : Point) : ℤ × ℤ :=
  (round (p.1 * 100000), round (p.2 * 100000))

/-- The in memory directed graph: the NetworkX node and edge sets in
insertion order. Re-adding an existing node or edge only updates its
attributes, so membership alone determines both sets; attributes other
than identity are not tracked. -/
structure GraphModel where
  nodes : List Point
  edges : List (Point × Point)

/-- NetworkX `G.add_node` restricted to node identity. -/
def addNode (G : GraphModel) (p : Point) : GraphModel :=
  if p ∈ G.nodes then G else { G with nodes := G.nodes ++ [p] }

/-- NetworkX `G.add_edge` restricted to edge identity; `nx.DiGraph`
stores at most one edge per ordered node pair. -/
def addEdge (G : GraphModel) (u v : Point) : GraphModel :=
  if (u, v) ∈ G.edges then G else { G with edges := G.edges ++ [(u, v)] }

/-- A row of `nodes.csv`: the string node id (quantized key) and the raw
coordinates (source line 239). -/
structure NodeRow where
  node_id : ℤ × ℤ
  lon : ℝ
  lat : ℝ

/-- A row of `edges.csv` (source lines 228 to 235); the WKT string is
modelled by the coordinate list it prints. -/
structure EdgeRow where
  edge_id : ℕ
  from_node_id : ℤ × ℤ
  to_node_id : ℤ × ℤ
  river_name : String
  length_km : ℝ
  wkt : List Point

/-- State threaded through the row loop of `build_graph_and_csvs`. -/
structure BuildState where
  G : GraphModel
  node_data : List NodeRow
  edge_data : List EdgeRow
  seen_nodes : List Point

/-- One iteration of the loop of source lines 201 to 243 on the row at
position `ir.1`: missing geometries and geometries with fewer than two
vertices are skipped, otherwise both endpoint nodes and the directed
edge are added to the graph, an edge table row is appended, and a node
table row is appended for each endpoint not seen before (dedup by the
raw coordinate tuple, source lines 238 to 243). -/
def buildStep (st : BuildState) (ir : ℕ × LineRow) : BuildState :=
  match ir.2.geometry with
  | none => st
  | some cs =>
    if cs.length < 2 then st
    else
      let u := cs.headD (0, 0)
      let v := cs.getLastD (0, 0)
      let er : EdgeRow :=
        { edge_id := ir.1 + 1
          from_node_id := quantKey u
          to_node_id := quantKey v
          river_name := ir.2.river_name
          length_km := polyLength cs * 111
          wkt := cs }
      let st1 : BuildState :=
        { G := addEdge (addNode (addNode st.G u) v) u v
          node_data := st.node_data
          edge_data := st.edge_data ++ [er]
          seen_nodes := st.seen_nodes }
      let st2 : BuildState :=
        if u ∈ st1.seen_nodes then st1
        else
          { st1 with
            node_data := st1.node_data
              ++ [{ node_id := quantKey u, lon := u.1, lat := u.2 }]
            seen_nodes := st1.seen_nodes ++ [u] }
      if v ∈ st2.seen_nodes then st2
      else
        { st2 with
          node_data := st2.node_data
            ++ [{ node_id := quantKey v, lon := v.1, lat := v.2 }]
          seen_nodes := st2.seen_nodes ++ [v] }

/-- Model of `build_graph_and_csvs` (source lines 184 to 246): the row
loop folded over the enumerated rows; the frame is reset to a RangeIndex
at line 195, so `edge_id` is the position plus one (line 196). -/
def build_graph_and_csvs (rows : List LineRow) : BuildState :=
  rows.enum.foldl buildStep
    { G := { nodes := [], edges := [] }, node_data := [], edge_data := [],
      seen_nodes := [] }

/-- Model of `gpd.sjoin(left, right, how="left", predicate="covered_by")`
for a left frame with a RangeIndex: one output row per geometric match,
ordered by left position then right position, and a single row with a
null attribute when a left row has no match. The geometric `covered_by`
test is an abstract boolean predicate. -/
def sjoinLeft {γ : Type} (covered : γ → γ → Bool)
    (left : List γ) (right : List (String × γ)) : List (ℕ × γ × Option String) :=
  left.enum.flatMap fun ig =>
    if (right.filter fun r => covered ig.2 r.2).isEmpty then [(ig.1, ig.2, none)]
    else (right.filter fun r => covered ig.2 r.2).map fun r => (ig.1, ig.2, some r.1)

/-- Model of `frame[~frame.index.duplicated(keep="first")]`: keep each
row whose index value has not occurred earlier. -/
def dropDupIndex {γ : Type} : List (ℕ × γ × Option String) → List ℕ → List (ℕ × γ × Option String)
  | [], _ => []
  | x :: rest, seen =>
    if x.1 ∈ seen then dropDupIndex rest seen
    else x :: dropDupIndex rest (x.1 :: seen)

/-- Model of the attribute recovery block (source lines 276 to 281):
left spatial join with the pre planarize originals, rename of `name_en`
to `river_name`, drop of the `index_right` artifact, and removal of
duplicated indices keeping the first match. -/
def recoverAttributes {γ : Type} (covered : γ → γ → Bool)
    (left : List γ) (right : List (String × γ)) : List (γ × Option String) :=
  (dropDupIndex (sjoinLeft covered left right) []).map fun t => (t.2.1, t.2.2)

theorem explodeRow_parts (r : RawRow) :
    (explodeRow r).map (fun x => x.geometry.getD []) = rawLineParts r := by
  cases hg : r.geometry with
  | none => simp [explodeRow, rawLineParts, hg]
  | some g =>
    cases g with
    | lineString cs => simp [explodeRow, rawLineParts, hg]
    | multiLineString parts =>
      simp [explodeRow, rawLineParts, hg, List.map_map, Function.comp_def]
    | otherGeom => simp [explodeRow, rawLineParts, hg]

theorem explodeRow_names (r : RawRow) :
    (explodeRow r).map (fun x => x.river_name)
      = (rawLineParts r).map fun _ => r.name_en.getD "Unknown" := by
  cases hg : r.geometry with
  | none => simp [explodeRow, rawLineParts, hg]
  | some g =>
    cases g with
    | lineString cs => simp [explodeRow, rawLineParts, hg]
    | multiLineString parts =>
      simp [explodeRow, rawLineParts, hg, List.map_map, Function.comp_def]
    | otherGeom => simp [explodeRow, rawLineParts, hg]

theorem explodeRow_all_some (r : RawRow) :
    ((explodeRow r).all fun x => x.geometry.isSome) = true := by
  cases hg : r.geometry with
  | none => simp [explodeRow, hg]
  | some g =>
    cases g with
    | lineString cs => simp [explodeRow, hg]
    | multiLineString parts => simp [explodeRow, hg, List.all_eq_true]
    | otherGeom => simp [explodeRow, hg]

/-- C7: every feature produced by `explode_multilinestrings` is a single
simple LineString carrying the channel name of its source feature, a
feature with missing geometry is silently dropped, the vertices across
the outputs are exactly the vertices across the input line parts, and
the empty collection yields the empty collection (no failure: the
transform is total). -/
theorem explode_multilinestrings_spec :
    (∀ rows : List RawRow,
        ((explode_multilinestrings rows).all fun r => r.geometry.isSome) = true
      ∧ ((explode_multilinestrings rows).map fun r => r.geometry.getD []).flatten
          = ((rows.map rawLineParts).flatten).flatten
      ∧ ((explode_multilinestrings rows).map fun r => r.river_name)
          = (rows.map fun r => (rawLineParts r).map
              fun _ => r.name_en.getD "Unknown").flatten)
    ∧ (∀ name : Option String, explodeRow { name_en := name, geometry := none } = [])
    ∧ explode_multilinestrings ([] : List RawRow) = [] := by
  refine ⟨fun rows => ⟨?_, ?_, ?_⟩, fun name => rfl, rfl⟩
  · induction rows with
    | nil => rfl
    | cons r rows ih =>
      rw [show explode_multilinestrings (r :: rows)
            = explodeRow r ++ explode_multilinestrings rows from
          List.flatMap_cons .., List.all_append, explodeRow_all_some r, ih]
      rfl
  · induction rows with
    | nil => rfl
    | cons r rows ih =>
      rw [show explode_multilinestrings (r :: rows)
            = explodeRow r ++ explode_multilinestrings rows from
          List.flatMap_cons .., List.map_append, List.flatten_append,
        ih, List.map_cons, List.flatten_cons, explodeRow_parts, List.flatten_append]
  · induction rows with
    | nil => rfl
    | cons r rows ih =>
      rw [show explode_multilinestrings (r :: rows)
            = explodeRow r ++ explode_multilinestrings rows from
          List.flatMap_cons .., List.map_append, ih, List.map_cons,
        List.flatten_cons, explodeRow_names]

theorem filter_head?_eq_find? {α : Type} (p : α → Bool) :
    ∀ l : List α, (l.filter p).head? = l.find? p := by
  intro l
  induction l with
  | nil => rfl
  | cons a l ih =>
    by_cases h : p a = true
    · simp [List.filter_cons, h, List.find?_cons_of_pos _ h]
    · have h' : p a = false := by
        cases hpa : p a with
        | true => exact absurd hpa h
        | false => rfl
      simp [List.filter_cons, h', List.find?_cons_of_neg, ih]

theorem dropDupIndex_cons {γ : Type} (y : ℕ × γ × Option String)
    (l : List (ℕ × γ × Option String)) (seen : List ℕ) :
    dropDupIndex (y :: l) seen
      = if y.1 ∈ seen then dropDupIndex l seen
        else y :: dropDupIndex l (y.1 :: seen) := rfl

theorem dropDupIndex_seen {γ : Type} :
    ∀ (ys rest : List (ℕ × γ × Option String)) (seen : List ℕ),
      (∀ y ∈ ys, y.1 ∈ seen) →
      dropDupIndex (ys ++ rest) seen = dropDupIndex rest seen := by
  intro ys
  induction ys with
  | nil => intro rest seen _; rfl
  | cons y ys ih =>
    intro rest seen hseen
    rw [List.cons_append, dropDupIndex_cons,
      if_pos (hseen y (List.mem_cons_self y ys))]
    exact ih rest seen fun z hz => hseen z (List.mem_cons_of_mem y hz)

theorem dropDup_sjoin_aux {γ : Type} (covered : γ → γ → Bool)
    (right : List (String × γ)) :
    ∀ (l : List γ) (k : ℕ) (seen : List ℕ),
      (∀ i ∈ seen, i < k) →
      dropDupIndex ((l.enumFrom k).flatMap fun ig =>
          if (right.filter fun r => covered ig.2 r.2).isEmpty then [(ig.1, ig.2, none)]
          else (right.filter fun r => covered ig.2 r.2).map
            fun r => (ig.1, ig.2, some r.1)) seen
        = (l.enumFrom k).map fun ig =>
            (ig.1, ig.2, (right.find? fun r => covered ig.2 r.2).map fun r => r.1) := by
  intro l
  induction l with
  | nil => intro k seen _; rfl
  | cons g gs ih =>
    intro k seen hseen
    have hknot : k ∉ seen := fun hk => lt_irrefl k (hseen k hk)
    rw [List.enumFrom_cons, List.flatMap_cons, List.map_cons]
    by_cases hemp : ((right.filter fun r => covered g r.2).isEmpty : Bool) = true
    · rw [if_pos hemp, List.singleton_append, dropDupIndex_cons, if_neg hknot]
      have hfind : (right.find? fun r => covered g r.2) = none := by
        rw [← filter_head?_eq_find?, List.isEmpty_iff.mp hemp]
        rfl
      rw [hfind, ih (k + 1) (k :: seen)
        (by
          intro i hi
          rcases List.mem_cons.mp hi with h | h
          · omega
          · exact Nat.lt_succ_of_lt (hseen i h))]
      rfl
    · rw [if_neg hemp]
      cases hf : right.filter fun r => covered g r.2 with
      | nil => exact absurd (by rw [hf]; rfl) hemp
      | cons r1 rs =>
        have hfind : (right.find? fun r => covered g r.2) = some r1 := by
          rw [← filter_head?_eq_find?, hf]
          rfl
        rw [hfind, List.map_cons, List.cons_append, dropDupIndex_cons, if_neg hknot]
        rw [dropDupIndex_seen (rs.map fun r => (k, g, some r.1)) _ (k :: seen)
          (by
            intro y hy
            rcases List.mem_map.mp hy with ⟨r, _, rfl⟩
            exact List.mem_cons_self k seen)]
        rw [ih (k + 1) (k :: seen)
          (by
            intro i hi
            rcases List.mem_cons.mp hi with h | h
            · omega
            · exact Nat.lt_succ_of_lt (hseen i h))]
        rfl

theorem enumFrom_map_pair {γ δ : Type} (f : γ → δ) :
    ∀ (l : List γ) (k : ℕ),
      ((l.enumFrom k).map fun ig => (ig.2, f ig.2)) = l.map fun g => (g, f g) := by
  intro l
  induction l with
  | nil => intro k; rfl
  | cons g gs ih =>
    intro k
    rw [List.enumFrom_cons, List.map_cons, List.map_cons, ih (k + 1)]

/-- C8: the attribute recovery join attaches exactly one channel name to
every planarized line: the name of the first matching original in the
stable left position then right position ordering, with further matches
discarded; a line with no covering original receives a null name, and a
multiple match situation never raises an error (the transform is total
and keeps one row per left row). -/
theorem attribute_recovery_first_match {γ : Type} (covered : γ → γ → Bool)
    (left : List γ) (right : List (String × γ)) :
    recoverAttributes covered left right
      = left.map fun g =>
          (g, (right.find? fun r => covered g r.2).map fun r => r.1) := by
  unfold recoverAttributes sjoinLeft
  rw [show left.enum = left.enumFrom 0 from rfl,
    dropDup_sjoin_aux covered right left 0 [] (by intro i hi; cases hi),
    List.map_map]
  have : ((fun t : ℕ × γ × Option String => (t.2.1, t.2.2)) ∘ fun ig : ℕ × γ =>
        (ig.1, ig.2, (right.find? fun r => covered ig.2 r.2).map fun r => r.1))
      = fun ig : ℕ × γ =>
        (ig.2, (right.find? fun r => covered ig.2 r.2).map fun r => r.1) := rfl
  rw [this, enumFrom_map_pair (fun g => (right.find? fun r => covered g r.2).map
    fun r => r.1) left 0]

theorem snapRows_getElem? (rows : List LineRow) (tol : ℝ) :
    ∀ (l : List LineRow) (k i : ℕ),
      (snapRows rows tol k l)[i]? = (l[i]?).map fun r => snapRow rows tol r (k + i) := by
  intro l
  induction l with
  | nil => intro k i; simp [snapRows]
  | cons r rest ih =>
    intro k i
    cases i with
    | zero => simp [snapRows]
    | succ n =>
      show (snapRow rows tol r k :: snapRows rows tol (k + 1) rest)[n + 1]? = _
      rw [List.getElem?_cons_succ, ih (k + 1) n, List.getElem?_cons_succ,
        show k + 1 + n = k + (n + 1) by omega]

theorem snapRow_rel (rows : List LineRow) (tol : ℝ) (r : LineRow) (i : ℕ) :
    (snapRow rows tol r i).river_name = r.river_name
    ∧ ((r.geometry = none ∧ (snapRow rows tol r i).geometry = none)
      ∨ ∃ cs cs', r.geometry = some cs ∧ (snapRow rows tol r i).geometry = some cs'
          ∧ cs'.length = cs.length ∧ cs'.dropLast = cs.dropLast) := by
  cases hg : r.geometry with
  | none =>
    refine ⟨?_, Or.inl ⟨rfl, ?_⟩⟩ <;> simp [snapRow, hg]
  | some cs =>
    by_cases hemp : cs.isEmpty
    · have hr : snapRow rows tol r i = r := by
        simp only [snapRow, hg]
        rw [if_pos hemp]
      rw [hr]
      exact ⟨rfl, Or.inr ⟨cs, cs, rfl, hg, rfl, rfl⟩⟩
    · have hne : cs ≠ [] := by
        cases cs with
        | nil => exact absurd rfl hemp
        | cons c cs' => exact List.cons_ne_nil c cs'
      cases hct : chooseTarget rows tol i (cs.getLastD (0, 0)) with
      | none =>
        have hr : snapRow rows tol r i = r := by
          simp only [snapRow, hg]
          rw [if_neg hemp, hct]
        rw [hr]
        exact ⟨rfl, Or.inr ⟨cs, cs, rfl, hg, rfl, rfl⟩⟩
      | some jds =>
        have hr : snapRow rows tol r i
            = { river_name := r.river_name
                geometry := some (cs.dropLast
                  ++ [nearestPt (cs.getLastD (0, 0)) jds.2]) } := by
          simp only [snapRow, hg]
          rw [if_neg hemp, hct]
        rw [hr]
        refine ⟨rfl, Or.inr ⟨cs, cs.dropLast ++ [nearestPt (cs.getLastD (0, 0)) jds.2],
          rfl, rfl, ?_, List.dropLast_concat⟩⟩
        rw [List.length_append, List.length_dropLast, List.length_cons,
          List.length_nil]
        have : 0 < cs.length := List.length_pos.mpr hne
        omega

theorem snapRows_forall₂ (rows : List LineRow) (tol : ℝ) :
    ∀ (l : List LineRow) (k : ℕ),
      List.Forall₂ (fun a b => b.river_name = a.river_name
        ∧ ((a.geometry = none ∧ b.geometry = none)
          ∨ ∃ cs cs', a.geometry = some cs ∧ b.geometry = some cs'
              ∧ cs'.length = cs.length ∧ cs'.dropLast = cs.dropLast))
        l (snapRows rows tol k l) := by
  intro l
  induction l with
  | nil => intro k; exact List.Forall₂.nil
  | cons r rest ih =>
    intro k
    exact List.Forall₂.cons (snapRow_rel rows tol r k) (ih (k + 1))

/-- C10: `snap_endpoints` returns a collection with the same number of
lines in the same order carrying the same channel name attributes, and
each line keeps its vertex count with every vertex except possibly the
last one unchanged. -/
theorem snap_endpoints_frame_spec (rows : List LineRow) (tol : ℝ) :
    List.Forall₂ (fun a b => b.river_name = a.river_name
      ∧ ((a.geometry = none ∧ b.geometry = none)
        ∨ ∃ cs cs', a.geometry = some cs ∧ b.geometry = some cs'
            ∧ cs'.length = cs.length ∧ cs'.dropLast = cs.dropLast))
      rows (snap_endpoints rows tol) :=
  snapRows_forall₂ rows tol rows 0

/-- C9 amended: `snap_endpoints` assigns the new geometry column to its
argument in place and returns that same frame, so the post call state of
the input collection equals the returned collection (the input is
mutated, not left unchanged); the rows keep their channel names in
order, only geometries are re-created. -/
theorem snap_endpoints_inplace_spec (rows : List LineRow) (tol : ℝ) :
    (snapEndpointsCall rows tol).2 = (snapEndpointsCall rows tol).1
    ∧ List.Forall₂ (fun a b => b.river_name = a.river_name)
        rows (snapEndpointsCall rows tol).2 :=
  ⟨rfl, List.Forall₂.imp (fun _ _ h => h.1) (snapRows_forall₂ rows tol rows 0)⟩

theorem scanStep_all_ne (rows : List LineRow) (i : ℕ) (p : Point)
    (st : ℝ × Option (ℕ × List Point)) (j : ℕ)
    (h : (st.2.all fun t => t.1 != i) = true) :
    ((scanStep rows i p st j).2.all fun t => t.1 != i) = true := by
  unfold scanStep
  by_cases hji : j = i
  · rw [if_pos hji]; exact h
  · rw [if_neg hji]
    split
    · exact h
    · split
      · exact h
      · split
        · simpa using hji
        · exact h

theorem scan_all_ne (rows : List LineRow) (i : ℕ) (p : Point) :
    ∀ (cand : List ℕ) (st : ℝ × Option (ℕ × List Point)),
      (st.2.all fun t => t.1 != i) = true →
      ((cand.foldl (scanStep rows i p) st).2.all fun t => t.1 != i) = true := by
  intro cand
  induction cand with
  | nil => intro st h; exact h
  | cons j rest ih =>
    intro st h
    rw [List.foldl_cons]
    exact ih (scanStep rows i p st j) (scanStep_all_ne rows i p st j h)

/-- C6: the snap target chosen for a line is never the line itself: the
candidate loop of `snap_endpoints` skips the index of the line being
processed, so whenever a target is selected its index differs from the
index of the snapped line. -/
theorem snap_no_self_target (rows : List LineRow) (tol : ℝ) (i : ℕ) (p : Point) :
    ((chooseTarget rows tol i p).all fun t => t.1 != i) = true :=
  scan_all_ne rows i p (candidateIdx rows p tol) (tol, none) rfl

/-- C5: a line with zero vertices in its geometry, or no geometry at
all, passes through `snap_endpoints` unchanged at its position. A valid
shapely LineString has zero or at least two coordinates, never exactly
one, so under that validity assumption this settles every line with at
most one vertex; the model is total on this path, reflecting that the
code raises no exception there. -/
theorem snap_endpoints_degenerate_passthrough (rows : List LineRow) (tol : ℝ)
    (i : ℕ) (r : LineRow) (hrow : rows[i]? = some r)
    (hvalid : ∀ cs, r.geometry = some cs → cs.length ≠ 1)
    (hdeg : (r.geometry.getD []).length ≤ 1) :
    (snap_endpoints rows tol)[i]? = some r := by
  unfold snap_endpoints
  rw [snapRows_getElem? rows tol rows 0 i, hrow, Option.map_some']
  cases hg : r.geometry with
  | none => simp [snapRow, hg]
  | some cs =>
    have hcs : cs = [] := by
      rw [hg] at hdeg hvalid
      cases cs with
      | nil => rfl
      | cons c cs' =>
        exfalso
        have h1 : (c :: cs').length ≠ 1 := hvalid (c :: cs') rfl
        have h2 : (c :: cs').length ≤ 1 := by simpa using hdeg
        have h3 : 0 < (c :: cs').length := List.length_pos.mpr (List.cons_ne_nil c cs')
        omega
    subst hcs
    simp [snapRow, hg]

/-- Witness for the degenerate pass through at a concrete input: a
single feature whose geometry is an empty LineString, with the
configured tolerance of 0.05 degrees. -/
theorem snap_endpoints_degenerate_passthrough_witness :
    (snap_endpoints [{ river_name := "Ravi", geometry := some [] }] (1 / 20))[0]?
      = some { river_name := "Ravi", geometry := some ([] : List Point) } := by
  refine snap_endpoints_degenerate_passthrough _ _ 0 _ rfl ?_ ?_
  · intro cs h
    have : cs = [] := by
      simpa using h.symm
    subst this
    decide
  · simp

theorem nSegs_facts {L T : ℝ} (hT : 0 < T) (hLT : T < L) :
    1 ≤ nSegs L T ∧ L / T ≤ (nSegs L T : ℝ) ∧ 0 < segLen L T
      ∧ (nSegs L T : ℝ) * segLen L T = L := by
  have hL : 0 < L := lt_trans hT hLT
  have hpos : 0 < L / T := div_pos hL hT
  have hceil : 0 < ⌈L / T⌉ := Int.ceil_pos.mpr hpos
  have h1 : 1 ≤ nSegs L T := by
    unfold nSegs
    omega
  have hcast : ((nSegs L T : ℕ) : ℝ) = ((⌈L / T⌉ : ℤ) : ℝ) := by
    unfold nSegs
    rw [← Int.cast_natCast, Int.toNat_of_nonneg (le_of_lt hceil)]
  have h2 : L / T ≤ (nSegs L T : ℝ) := by
    rw [hcast]
    exact Int.le_ceil (L / T)
  have hn0 : (0 : ℝ) < (nSegs L T : ℝ) := by
    exact_mod_cast h1
  have h3 : 0 < segLen L T := by
    unfold segLen
    positivity
  have h4 : (nSegs L T : ℝ) * segLen L T = L := by
    unfold segLen
    rw [mul_comm]
    exact div_mul_cancel₀ L (ne_of_gt hn0)
  exact ⟨h1, h2, h3, h4⟩

/-- C1 amended: the per line behavior of `segmentize_lines` with a
positive target interval, for a LineString without zero length edges. A
line of length at most the interval is returned unchanged as a single
segment. A longer line yields exactly `ceil(L / T)` segments, the
substrings between consecutive multiples of `s = L / ceil(L / T)` (the
final clamp never fires in exact arithmetic since `n * s = L` exactly),
consecutive segments chain at the interpolated cut points (each starts
where the previous one ends, the first at the line start point, the last
at the line end point), and each segment reparametrized from its cut
traces exactly the points of the original line: the segments reconstruct
the original line as a curve. The literal vertex path concatenation is
not the original vertex list — it repeats each interior cut point — as
the counterexample shows. -/
theorem segmentize_lines_amended_spec (name : String) (cs : List Point)
    (interval_km : ℝ) (hkm : 0 < interval_km)
    (hnz : List.Chain' (· ≠ ·) cs) :
    segmentize_lines [{ river_name := name, geometry := some cs }] interval_km
        = segmentizeLine name cs (interval_km / 111)
    ∧ (polyLength cs ≤ interval_km / 111 →
        segmentizeLine name cs (interval_km / 111)
          = [{ river_name := name, geometry := some cs }])
    ∧ (interval_km / 111 < polyLength cs →
        (segmentizeLine name cs (interval_km / 111)).length
            = nSegs (polyLength cs) (interval_km / 111)
        ∧ (nSegs (polyLength cs) (interval_km / 111) : ℝ)
              * segLen (polyLength cs) (interval_km / 111) = polyLength cs
        ∧ ∀ i : ℕ, i < nSegs (polyLength cs) (interval_km / 111) →
            (segmentizeLine name cs (interval_km / 111))[i]?
                = some { river_name := name
                         geometry := some (substringCoords cs
                           ((i : ℝ) * segLen (polyLength cs) (interval_km / 111))
                           (((i : ℝ) + 1)
                             * segLen (polyLength cs) (interval_km / 111))) }
            ∧ (substringCoords cs
                  ((i : ℝ) * segLen (polyLength cs) (interval_km / 111))
                  (((i : ℝ) + 1) * segLen (polyLength cs) (interval_km / 111))).head?
                = some (interp cs
                    ((i : ℝ) * segLen (polyLength cs) (interval_km / 111)))
            ∧ (substringCoords cs
                  ((i : ℝ) * segLen (polyLength cs) (interval_km / 111))
                  (((i : ℝ) + 1) * segLen (polyLength cs) (interval_km / 111))).getLast?
                = some (interp cs
                    (((i : ℝ) + 1) * segLen (polyLength cs) (interval_km / 111)))
            ∧ ∀ d : ℝ,
                (i : ℝ) * segLen (polyLength cs) (interval_km / 111) ≤ d →
                d ≤ ((i : ℝ) + 1) * segLen (polyLength cs) (interval_km / 111) →
                interp (substringCoords cs
                    ((i : ℝ) * segLen (polyLength cs) (interval_km / 111))
                    (((i : ℝ) + 1) * segLen (polyLength cs) (interval_km / 111)))
                  (d - (i : ℝ) * segLen (polyLength cs) (interval_km / 111))
                  = interp cs d) := by
  have hT : 0 < interval_km / 111 := div_pos hkm (by norm_num)
  refine ⟨?_, ?_, ?_⟩
  · simp [segmentize_lines]
  · intro hle
    unfold segmentizeLine
    rw [if_pos hle]
  · intro hlt
    obtain ⟨h1, h2, h3, h4⟩ := nSegs_facts hT hlt
    have hnot : ¬ polyLength cs ≤ interval_km / 111 := not_le.mpr hlt
    have hlen : (segmentizeLine name cs (interval_km / 111)).length
        = nSegs (polyLength cs) (interval_km / 111) := by
      unfold segmentizeLine
      rw [if_neg hnot, List.length_map, List.length_range]
    refine ⟨hlen, h4, ?_⟩
    intro i hi
    have hile : ((i : ℝ) + 1) ≤ (nSegs (polyLength cs) (interval_km / 111) : ℝ) := by
      have hnat : i + 1 ≤ nSegs (polyLength cs) (interval_km / 111) := hi
      exact_mod_cast hnat
    have hsle : ((i : ℝ) + 1) * segLen (polyLength cs) (interval_km / 111)
        ≤ polyLength cs := by
      calc ((i : ℝ) + 1) * segLen (polyLength cs) (interval_km / 111)
          ≤ (nSegs (polyLength cs) (interval_km / 111) : ℝ)
              * segLen (polyLength cs) (interval_km / 111) :=
            mul_le_mul_of_nonneg_right hile (le_of_lt h3)
        _ = polyLength cs := h4
    have hgt : (segmentizeLine name cs (interval_km / 111))[i]?
        = some { river_name := name
                 geometry := some (substringCoords cs
                   ((i : ℝ) * segLen (polyLength cs) (interval_km / 111))
                   (((i : ℝ) + 1) * segLen (polyLength cs) (interval_km / 111))) } := by
      unfold segmentizeLine
      rw [if_neg hnot, List.getElem?_map, List.getElem?_range hi, Option.map_some',
        if_neg (not_lt.mpr hsle)]
    refine ⟨hgt, substringCoords_head cs _ _, substringCoords_getLast cs _ _, ?_⟩
    intro d hd1 hd2
    exact interp_substringCoords cs _ _ d hnz
      (mul_nonneg (Nat.cast_nonneg i) (le_of_lt h3))
      (by nlinarith [h3]) hsle hd1 hd2

/-- Concrete two vertex line of length 3 degrees used to exercise the
segmentizer. -/
def exSegCs : List Point := [((0 : ℝ), (0 : ℝ)), (3, 0)]

theorem exSeg_dist : dist ((0 : ℝ), (0 : ℝ)) ((3 : ℝ), (0 : ℝ)) = 3 := by
  unfold dist
  rw [show ((3 : ℝ) - 0) ^ 2 + ((0 : ℝ) - 0) ^ 2 = 3 ^ 2 by norm_num,
    Real.sqrt_sq (by norm_num : (0 : ℝ) ≤ 3)]

theorem exSeg_len : polyLength exSegCs = 3 := by
  unfold exSegCs
  simp only [polyLength]
  rw [exSeg_dist]
  norm_num

theorem exSeg_nsegs : nSegs (polyLength exSegCs) (111 / 111) = 3 := by
  rw [exSeg_len]
  unfold nSegs
  rw [show (3 : ℝ) / (111 / 111) = ((3 : ℤ) : ℝ) by norm_num, Int.ceil_intCast]
  rfl

theorem exSeg_seglen : segLen (polyLength exSegCs) (111 / 111) = 1 := by
  unfold segLen
  rw [exSeg_nsegs, exSeg_len]
  norm_num

theorem exSeg_sub (a b : ℝ) (ha : 0 ≤ a) (hab : a < b) (hb : b ≤ 3) :
    substringCoords exSegCs a b = [((a : ℝ), (0 : ℝ)), (b, 0)] := by
  have hb0 : 0 < b := lt_of_le_of_lt ha hab
  have hm : midVerts exSegCs 0 a b = [] := by
    unfold exSegCs
    simp only [midVerts]
    rw [if_neg (by intro hc; linarith [hc.1]), if_neg (by linarith)]
  have hia : interp exSegCs a = (a, 0) := by
    unfold exSegCs
    simp only [interp]
    rw [exSeg_dist, if_pos (by linarith)]
    unfold lerp
    refine Prod.ext ?_ ?_ <;> dsimp <;> field_simp
  have hib : interp exSegCs b = (b, 0) := by
    unfold exSegCs
    simp only [interp]
    rw [exSeg_dist, if_pos (by linarith)]
    unfold lerp
    refine Prod.ext ?_ ?_ <;> dsimp <;> field_simp
  unfold substringCoords
  rw [hm, hia, hib]
  rfl

/-- C1 counterexample: segmenting the two vertex line from (0,0) to
(3,0) with a 111 km interval (one degree target length, so three
segments) and concatenating the vertex paths of the segments in order
yields six vertices, not the original two vertex path: the concatenation
does not reconstruct the original line exactly as a vertex list. -/
theorem segmentize_vertex_concat_counterexample :
    ((segmentize_lines [{ river_name := "Indus", geometry := some exSegCs }] 111).map
        fun r => r.geometry.getD []).flatten ≠ exSegCs := by
  have hseg : segmentize_lines [{ river_name := "Indus", geometry := some exSegCs }] 111
      = segmentizeLine "Indus" exSegCs (111 / 111) := by
    simp [segmentize_lines]
  have hsl : segmentizeLine "Indus" exSegCs (111 / 111)
      = [{ river_name := "Indus", geometry := some [((0 : ℝ), (0 : ℝ)), (1, 0)] },
         { river_name := "Indus", geometry := some [((1 : ℝ), (0 : ℝ)), (2, 0)] },
         { river_name := "Indus", geometry := some [((2 : ℝ), (0 : ℝ)), (3, 0)] }] := by
    unfold segmentizeLine
    rw [if_neg (by rw [exSeg_len]; norm_num), exSeg_nsegs, exSeg_seglen, exSeg_len,
      show List.range 3 = [0, 1, 2] from rfl]
    simp only [List.map_cons, List.map_nil, Nat.cast_zero, Nat.cast_one,
      Nat.cast_ofNat]
    norm_num
    rw [exSeg_sub 0 1 le_rfl (by norm_num) (by norm_num),
      exSeg_sub 1 2 (by norm_num) (by norm_num) (by norm_num),
      exSeg_sub 2 3 (by norm_num) (by norm_num) (by norm_num)]
    exact ⟨rfl, rfl, rfl⟩
  rw [hseg, hsl]
  intro h
  have hlen := congrArg List.length h
  rw [exSegCs] at hlen
  simp at hlen

/-- Witness for the amended segmentizer spec at the concrete line: the
hypotheses hold and the long line branch produces exactly the computed
number of segments. -/
theorem segmentize_lines_amended_spec_witness :
    (0 : ℝ) < 111
    ∧ List.Chain' (· ≠ ·) exSegCs
    ∧ (segmentizeLine "Indus" exSegCs (111 / 111)).length
        = nSegs (polyLength exSegCs) (111 / 111) := by
  have hch : List.Chain' (· ≠ ·) exSegCs := by
    unfold exSegCs
    refine List.chain'_cons.mpr ⟨?_, List.chain'_singleton _⟩
    intro h
    rw [Prod.ext_iff] at h
    norm_num at h
  refine ⟨by norm_num, hch, ?_⟩
  have hlt : 111 / 111 < polyLength exSegCs := by
    rw [exSeg_len]
    norm_num
  exact ((segmentize_lines_amended_spec "Indus" exSegCs 111 (by norm_num) hch).2.2
    hlt).1

theorem scanStep_eq_self {rows : List LineRow} {i : ℕ} {p : Point}
    {st : ℝ × Option (ℕ × List Point)} {j : ℕ} (hji : j = i) :
    scanStep rows i p st j = st := by
  unfold scanStep
  rw [if_pos hji]

theorem scanStep_eq_nogeom {rows : List LineRow} {i : ℕ} {p : Point}
    {st : ℝ × Option (ℕ × List Point)} {j : ℕ} (hji : j ≠ i)
    (hg : ((rows[j]?).bind fun r => r.geometry) = none) :
    scanStep rows i p st j = st := by
  unfold scanStep
  rw [if_neg hji]
  simp only [hg]

theorem scanStep_eq_nodist {rows : List LineRow} {i : ℕ} {p : Point}
    {st : ℝ × Option (ℕ × List Point)} {j : ℕ} {ds : List Point} (hji : j ≠ i)
    (hg : ((rows[j]?).bind fun r => r.geometry) = some ds)
    (hds : distScan p ds = none) :
    scanStep rows i p st j = st := by
  unfold scanStep
  rw [if_neg hji]
  simp only [hg, hds]

theorem scanStep_eq_dist {rows : List LineRow} {i : ℕ} {p : Point}
    {st : ℝ × Option (ℕ × List Point)} {j : ℕ} {ds : List Point} {dc : ℝ × Point}
    (hji : j ≠ i) (hg : ((rows[j]?).bind fun r => r.geometry) = some ds)
    (hds : distScan p ds = some dc) :
    scanStep rows i p st j = if dc.1 < st.1 then (dc.1, some (j, ds)) else st := by
  unfold scanStep
  rw [if_neg hji]
  simp only [hg, hds]

theorem snapRow_eq_target {rows : List LineRow} {tol : ℝ} {r : LineRow} {i : ℕ}
    {cs : List Point} {jds : ℕ × List Point} (hg : r.geometry = some cs)
    (hne : cs.isEmpty = false)
    (hct : chooseTarget rows tol i (cs.getLastD (0, 0)) = some jds) :
    snapRow rows tol r i
      = { river_name := r.river_name
          geometry := some (cs.dropLast ++ [nearestPt (cs.getLastD (0, 0)) jds.2]) } := by
  unfold snapRow
  simp only [hg, hne, hct]
  rfl

/-- Concrete pair of lines used to exhibit the in place mutation: the
first line ends one degree above the second line, within the tolerance
of two degrees, so its endpoint is snapped onto the second line. -/
def exMut : List LineRow :=
  [{ river_name := "Jhelum", geometry := some [((0 : ℝ), (1 : ℝ)), (1, 1)] },
   { river_name := "Chenab", geometry := some [((0 : ℝ), (0 : ℝ)), (2, 0)] }]

theorem exMut_closest :
    closestPtSeg ((1 : ℝ), (1 : ℝ)) ((0 : ℝ), (0 : ℝ)) ((2 : ℝ), (0 : ℝ))
      = ((1 : ℝ), (0 : ℝ)) := by
  unfold closestPtSeg lerp
  norm_num

theorem exMut_distScan :
    distScan ((1 : ℝ), (1 : ℝ)) [((0 : ℝ), (0 : ℝ)), ((2 : ℝ), (0 : ℝ))]
      = some (1, ((1 : ℝ), (0 : ℝ))) := by
  have hd : dist ((1 : ℝ), (1 : ℝ)) ((1 : ℝ), (0 : ℝ)) = 1 := by
    unfold dist
    norm_num
  simp only [distScan, exMut_closest, hd]

theorem exMut_candidates : candidateIdx exMut ((1 : ℝ), (1 : ℝ)) 2 = [0, 1] := by
  have hb0 : bboxHit ((exMut[0]?).bind fun r => r.geometry) ((1 : ℝ), (1 : ℝ)) 2 := by
    show bboxHit (some [((0 : ℝ), (1 : ℝ)), ((1 : ℝ), (1 : ℝ))]) ((1 : ℝ), (1 : ℝ)) 2
    unfold bboxHit
    simp only [bbox?]
    norm_num [min_def, max_def]
  have hb1 : bboxHit ((exMut[1]?).bind fun r => r.geometry) ((1 : ℝ), (1 : ℝ)) 2 := by
    show bboxHit (some [((0 : ℝ), (0 : ℝ)), ((2 : ℝ), (0 : ℝ))]) ((1 : ℝ), (1 : ℝ)) 2
    unfold bboxHit
    simp only [bbox?]
    norm_num [min_def, max_def]
  unfold candidateIdx
  rw [show exMut.length = 2 from rfl, show List.range 2 = [0, 1] from rfl,
    List.filter_cons, List.filter_cons, List.filter_nil,
    if_pos (decide_eq_true hb0), if_pos (decide_eq_true hb1)]

theorem exMut_chooseTarget :
    chooseTarget exMut 2 0 ((1 : ℝ), (1 : ℝ))
      = some (1, [((0 : ℝ), (0 : ℝ)), ((2 : ℝ), (0 : ℝ))]) := by
  unfold chooseTarget
  rw [exMut_candidates, List.foldl_cons, List.foldl_cons, List.foldl_nil,
    scanStep_eq_self rfl,
    scanStep_eq_dist (one_ne_zero) (rfl :
      ((exMut[1]?).bind fun r => r.geometry)
        = some [((0 : ℝ), (0 : ℝ)), ((2 : ℝ), (0 : ℝ))]) exMut_distScan,
    if_pos (by norm_num : (1 : ℝ) < 2)]

/-- Row zero of `exMut` after snapping: its endpoint moves to (1, 0). -/
theorem exMut_snapRow :
    snapRow exMut 2
        { river_name := "Jhelum", geometry := some [((0 : ℝ), (1 : ℝ)), (1, 1)] } 0
      = { river_name := "Jhelum"
          geometry := some [((0 : ℝ), (1 : ℝ)), ((1 : ℝ), (0 : ℝ))] } := by
  have hn : nearestPt ((1 : ℝ), (1 : ℝ)) [((0 : ℝ), (0 : ℝ)), ((2 : ℝ), (0 : ℝ))]
      = ((1 : ℝ), (0 : ℝ)) := by
    unfold nearestPt
    simp only [exMut_distScan]
  rw [snapRow_eq_target (by rfl) (by rfl) exMut_chooseTarget]
  show ({ river_name := "Jhelum"
          geometry := some [((0 : ℝ), (1 : ℝ)),
            nearestPt ((1 : ℝ), (1 : ℝ))
              [((0 : ℝ), (0 : ℝ)), ((2 : ℝ), (0 : ℝ))]] } : LineRow) = _
  rw [hn]

/-- C9 counterexample: after calling `snap_endpoints` on the concrete
two line collection with tolerance 2, the state of the input collection
differs from the collection that was passed in: the first line now ends
at (1, 0) instead of (1, 1), because the function assigns the new
geometry column to its argument in place. -/
theorem snap_endpoints_mutation_counterexample :
    (snapEndpointsCall exMut 2).2 ≠ exMut := by
  intro h
  have h0 : (snapEndpointsCall exMut 2).2[0]? = exMut[0]? :=
    congrArg (fun l => l[0]?) h
  have hL : (snapEndpointsCall exMut 2).2[0]?
      = some ({ river_name := "Jhelum"
                geometry := some [((0 : ℝ), (1 : ℝ)), ((1 : ℝ), (0 : ℝ))] } : LineRow) := by
    have e1 : (snapEndpointsCall exMut 2).2 = snapRows exMut 2 0 exMut := rfl
    rw [e1, snapRows_getElem? exMut 2 exMut 0 0,
      show exMut[0]? = some ({ river_name := "Jhelum"
                               geometry := some [((0 : ℝ), (1 : ℝ)), (1, 1)] } : LineRow)
        from rfl,
      Option.map_some', exMut_snapRow]
  rw [hL] at h0
  have h1 : some ({ river_name := "Jhelum"
                    geometry := some [((0 : ℝ), (1 : ℝ)), ((1 : ℝ), (0 : ℝ))] } : LineRow)
      = some ({ river_name := "Jhelum"
                geometry := some [((0 : ℝ), (1 : ℝ)), ((1 : ℝ), (1 : ℝ))] } : LineRow) := h0
  have h2 := congrArg LineRow.geometry (Option.some.inj h1)
  simp only [Option.some.injEq, List.cons.injEq, Prod.mk.injEq] at h2
  norm_num at h2

/-- Insertion into a membership deduplicated list, the common shape of
`G.add_node`, `G.add_edge` and the `seen_nodes` bookkeeping. -/
def insertNew {α : Type} (l : List α) (x : α) : List α :=
  if x ∈ l then l else l ++ [x]

/-- Conditional append of a node table row (source lines 238 to 243). -/
def recordNode (nd : List NodeRow) (seen : List Point) (p : Point) : List NodeRow :=
  if p ∈ seen then nd else nd ++ [{ node_id := quantKey p, lon := p.1, lat := p.2 }]

theorem insertNew_mem {α : Type} (l : List α) (x q : α) :
    q ∈ insertNew l x ↔ q ∈ l ∨ q = x := by
  unfold insertNew
  by_cases h : x ∈ l
  · rw [if_pos h]
    constructor
    · exact Or.inl
    · rintro (hq | rfl)
      · exact hq
      · exact h
  · rw [if_neg h]
    simp [List.mem_append]

theorem insertNew_nodup {α : Type} {l : List α} (x : α) (h : l.Nodup) :
    (insertNew l x).Nodup := by
  unfold insertNew
  by_cases hx : x ∈ l
  · rw [if_pos hx]
    exact h
  · rw [if_neg hx]
    simp [List.nodup_append, h, hx]

theorem insertNew_of_mem {α : Type} {l : List α} {x : α} (h : x ∈ l) :
    insertNew l x = l := if_pos h

theorem insertNew_of_not_mem {α : Type} {l : List α} {x : α} (h : ¬ x ∈ l) :
    insertNew l x = l ++ [x] := if_neg h

theorem recordNode_of_mem {nd : List NodeRow} {seen : List Point} {p : Point}
    (h : p ∈ seen) : recordNode nd seen p = nd := if_pos h

theorem recordNode_of_not_mem {nd : List NodeRow} {seen : List Point} {p : Point}
    (h : ¬ p ∈ seen) :
    recordNode nd seen p
      = nd ++ [{ node_id := quantKey p, lon := p.1, lat := p.2 }] := if_neg h

theorem recordNode_map {nd : List NodeRow} {seen : List Point} (p : Point)
    (h : (nd.map fun nr => ((nr.lon, nr.lat) : Point)) = seen) :
    ((recordNode nd seen p).map fun nr => ((nr.lon, nr.lat) : Point))
      = insertNew seen p := by
  unfold recordNode insertNew
  by_cases hp : p ∈ seen
  · rw [if_pos hp, if_pos hp, h]
  · rw [if_neg hp, if_neg hp, List.map_append, h]
    rfl

theorem recordNode_all_ids {nd : List NodeRow} {seen : List Point} (p : Point)
    (h : (nd.all fun nr => decide (nr.node_id = quantKey (nr.lon, nr.lat))) = true) :
    ((recordNode nd seen p).all fun nr =>
      decide (nr.node_id = quantKey (nr.lon, nr.lat))) = true := by
  unfold recordNode
  by_cases hp : p ∈ seen
  · rw [if_pos hp]
    exact h
  · rw [if_neg hp, List.all_append, h]
    simp

theorem addNode_nodes (G : GraphModel) (p : Point) :
    (addNode G p).nodes = insertNew G.nodes p := by
  unfold addNode insertNew
  by_cases h : p ∈ G.nodes
  · rw [if_pos h, if_pos h]
  · rw [if_neg h, if_neg h]

theorem addNode_edges (G : GraphModel) (p : Point) :
    (addNode G p).edges = G.edges := by
  unfold addNode
  by_cases h : p ∈ G.nodes
  · rw [if_pos h]
  · rw [if_neg h]

theorem addEdge_nodes (G : GraphModel) (u v : Point) :
    (addEdge G u v).nodes = G.nodes := by
  unfold addEdge
  by_cases h : (u, v) ∈ G.edges
  · rw [if_pos h]
  · rw [if_neg h]

theorem addEdge_edges (G : GraphModel) (u v : Point) :
    (addEdge G u v).edges = insertNew G.edges (u, v) := by
  unfold addEdge insertNew
  by_cases h : (u, v) ∈ G.edges
  · rw [if_pos h, if_pos h]
  · rw [if_neg h, if_neg h]

theorem buildStep_skip {st : BuildState} {i : ℕ} {r : LineRow}
    (h : r.geometry = none ∨ ∃ cs, r.geometry = some cs ∧ cs.length < 2) :
    buildStep st (i, r) = st := by
  unfold buildStep
  rcases h with h | ⟨cs, hg, hlen⟩
  · simp only [h]
  · simp only [hg]
    rw [if_pos hlen]

theorem buildStep_G {st : BuildState} {i : ℕ} {r : LineRow} {cs : List Point}
    (hg : r.geometry = some cs) (hlen : ¬ cs.length < 2) :
    (buildStep st (i, r)).G
      = addEdge (addNode (addNode st.G (cs.headD (0, 0))) (cs.getLastD (0, 0)))
          (cs.headD (0, 0)) (cs.getLastD (0, 0)) := by
  unfold buildStep
  simp only [hg]
  rw [if_neg hlen]
  rw [apply_ite BuildState.G, ite_self, apply_ite BuildState.G, ite_self]

theorem buildStep_edge_data {st : BuildState} {i : ℕ} {r : LineRow} {cs : List Point}
    (hg : r.geometry = some cs) (hlen : ¬ cs.length < 2) :
    (buildStep st (i, r)).edge_data
      = st.edge_data ++ [{ edge_id := i + 1
                           from_node_id := quantKey (cs.headD (0, 0))
                           to_node_id := quantKey (cs.getLastD (0, 0))
                           river_name := r.river_name
                           length_km := polyLength cs * 111
                           wkt := cs }] := by
  unfold buildStep
  simp only [hg]
  rw [if_neg hlen]
  rw [apply_ite BuildState.edge_data, ite_self, apply_ite BuildState.edge_data, ite_self]

theorem buildStep_seen {st : BuildState} {i : ℕ} {r : LineRow} {cs : List Point}
    (hg : r.geometry = some cs) (hlen : ¬ cs.length < 2) :
    (buildStep st (i, r)).seen_nodes
      = insertNew (insertNew st.seen_nodes (cs.headD (0, 0))) (cs.getLastD (0, 0)) := by
  unfold buildStep
  simp only [hg]
  rw [if_neg hlen]
  by_cases h1 : cs.headD (0, 0) ∈ st.seen_nodes
  · rw [if_pos h1, insertNew_of_mem h1]
    unfold insertNew
    by_cases h2 : cs.getLastD (0, 0) ∈ st.seen_nodes
    · rw [if_pos h2, if_pos h2]
    · rw [if_neg h2, if_neg h2]
  · rw [if_neg h1, insertNew_of_not_mem h1]
    unfold insertNew
    by_cases h2 : cs.getLastD (0, 0) ∈ st.seen_nodes ++ [cs.headD (0, 0)]
    · rw [if_pos h2, if_pos h2]
    · rw [if_neg h2, if_neg h2]

theorem buildStep_node_data {st : BuildState} {i : ℕ} {r : LineRow} {cs : List Point}
    (hg : r.geometry = some cs) (hlen : ¬ cs.length < 2) :
    (buildStep st (i, r)).node_data
      = recordNode (recordNode st.node_data st.seen_nodes (cs.headD (0, 0)))
          (insertNew st.seen_nodes (cs.headD (0, 0))) (cs.getLastD (0, 0)) := by
  unfold buildStep
  simp only [hg]
  rw [if_neg hlen]
  by_cases h1 : cs.headD (0, 0) ∈ st.seen_nodes
  · rw [if_pos h1, recordNode_of_mem h1, insertNew_of_mem h1]
    unfold recordNode
    by_cases h2 : cs.getLastD (0, 0) ∈ st.seen_nodes
    · rw [if_pos h2, if_pos h2]
    · rw [if_neg h2, if_neg h2]
  · rw [if_neg h1, recordNode_of_not_mem h1, insertNew_of_not_mem h1]
    unfold recordNode
    by_cases h2 : cs.getLastD (0, 0) ∈ st.seen_nodes ++ [cs.headD (0, 0)]
    · rw [if_pos h2, if_pos h2]
    · rw [if_neg h2, if_neg h2]

/-- Endpoint coordinates a row contributes to the graph assembler
(nothing for a missing or degenerate geometry). -/
def rowEndpoints (r : LineRow) : List Point :=
  match r.geometry with
  | none => []
  | some cs => if cs.length < 2 then [] else [cs.headD (0, 0), cs.getLastD (0, 0)]

/-- Directed endpoint pair of a non degenerate row. -/
def rowEdgePair (r : LineRow) : List (Point × Point) :=
  match r.geometry with
  | none => []
  | some cs => if cs.length < 2 then [] else [(cs.headD (0, 0), cs.getLastD (0, 0))]

/-- Number of distinct values of a list. -/
def numDistinct {α : Type} [DecidableEq α] (xs : List α) : ℕ := xs.toFinset.card

theorem rowEndpoints_skip {r : LineRow}
    (h : r.geometry = none ∨ ∃ cs, r.geometry = some cs ∧ cs.length < 2) :
    rowEndpoints r = [] ∧ rowEdgePair r = [] := by
  unfold rowEndpoints rowEdgePair
  rcases h with h | ⟨cs, hg, hlen⟩
  · simp [h]
  · simp [hg, hlen]

theorem rowEndpoints_some {r : LineRow} {cs : List Point}
    (hg : r.geometry = some cs) (hlen : ¬ cs.length < 2) :
    rowEndpoints r = [cs.headD (0, 0), cs.getLastD (0, 0)]
      ∧ rowEdgePair r = [(cs.headD (0, 0), cs.getLastD (0, 0))] := by
  unfold rowEndpoints rowEdgePair
  simp only [hg]
  rw [if_neg hlen, if_neg hlen]
  exact ⟨rfl, rfl⟩

theorem build_fold_inv :
    ∀ (l : List (ℕ × LineRow)) (st : BuildState),
      st.seen_nodes.Nodup → st.G.nodes = st.seen_nodes → st.G.edges.Nodup →
      (st.node_data.map fun nr => ((nr.lon, nr.lat) : Point)) = st.seen_nodes →
      ((st.node_data.all fun nr => decide (nr.node_id = quantKey (nr.lon, nr.lat))) = true) →
      (l.foldl buildStep st).seen_nodes.Nodup
      ∧ (l.foldl buildStep st).G.nodes = (l.foldl buildStep st).seen_nodes
      ∧ (l.foldl buildStep st).G.edges.Nodup
      ∧ ((l.foldl buildStep st).node_data.map fun nr => ((nr.lon, nr.lat) : Point))
          = (l.foldl buildStep st).seen_nodes
      ∧ (((l.foldl buildStep st).node_data.all fun nr =>
          decide (nr.node_id = quantKey (nr.lon, nr.lat))) = true)
      ∧ (∀ p : Point, p ∈ (l.foldl buildStep st).seen_nodes
          ↔ p ∈ st.seen_nodes ∨ p ∈ (l.map Prod.snd).flatMap rowEndpoints)
      ∧ (∀ e : Point × Point, e ∈ (l.foldl buildStep st).G.edges
          ↔ e ∈ st.G.edges ∨ e ∈ (l.map Prod.snd).flatMap rowEdgePair)
      ∧ (l.foldl buildStep st).edge_data.length
          = st.edge_data.length + ((l.map Prod.snd).flatMap rowEdgePair).length := by
  intro l
  induction l with
  | nil =>
    intro st h1 h2 h3 h4 h5
    exact ⟨h1, h2, h3, h4, h5, fun p => by simp, fun e => by simp, by simp⟩
  | cons ir rest ih =>
    intro st h1 h2 h3 h4 h5
    rw [List.foldl_cons]
    by_cases hskip : ir.2.geometry = none ∨ ∃ cs, ir.2.geometry = some cs ∧ cs.length < 2
    · rw [buildStep_skip hskip]
      obtain ⟨he, hp⟩ := rowEndpoints_skip hskip
      obtain ⟨g1, g2, g3, g4, g5, g6, g7, g8⟩ := ih st h1 h2 h3 h4 h5
      refine ⟨g1, g2, g3, g4, g5, fun p => ?_, fun e => ?_, ?_⟩
      · rw [g6 p, show ((ir :: rest).map Prod.snd).flatMap rowEndpoints
            = rowEndpoints ir.2 ++ (rest.map Prod.snd).flatMap rowEndpoints from by
          simp, he]
        simp
      · rw [g7 e, show ((ir :: rest).map Prod.snd).flatMap rowEdgePair
            = rowEdgePair ir.2 ++ (rest.map Prod.snd).flatMap rowEdgePair from by
          simp, hp]
        simp
      · rw [g8, show ((ir :: rest).map Prod.snd).flatMap rowEdgePair
            = rowEdgePair ir.2 ++ (rest.map Prod.snd).flatMap rowEdgePair from by
          simp, hp]
        simp
    · push_neg at hskip
      obtain ⟨hg0, hlen0⟩ := hskip
      cases hgeo : ir.2.geometry with
      | none => exact absurd hgeo hg0
      | some cs =>
        have hlen : ¬ cs.length < 2 := by
          have := hlen0 cs hgeo
          omega
        obtain ⟨hre, hrp⟩ := rowEndpoints_some hgeo hlen
        have hG := @buildStep_G st ir.1 ir.2 cs hgeo hlen
        have hE := @buildStep_edge_data st ir.1 ir.2 cs hgeo hlen
        have hS := @buildStep_seen st ir.1 ir.2 cs hgeo hlen
        have hN := @buildStep_node_data st ir.1 ir.2 cs hgeo hlen
        set u := cs.headD ((0 : ℝ), (0 : ℝ)) with hu
        set v := cs.getLastD ((0 : ℝ), (0 : ℝ)) with hv
        have k1 : (buildStep st ir).seen_nodes.Nodup := by
          rw [show buildStep st ir = buildStep st (ir.1, ir.2) from by rw [Prod.mk.eta]] at hS ⊢
          rw [hS]
          exact insertNew_nodup v (insertNew_nodup u h1)
        have k2 : (buildStep st ir).G.nodes = (buildStep st ir).seen_nodes := by
          rw [show buildStep st ir = buildStep st (ir.1, ir.2) from by rw [Prod.mk.eta]]
          rw [hS, hG, addEdge_nodes, addNode_nodes, addNode_nodes, h2]
        have k3 : (buildStep st ir).G.edges.Nodup := by
          rw [show buildStep st ir = buildStep st (ir.1, ir.2) from by rw [Prod.mk.eta]]
          rw [hG, addEdge_edges, addNode_edges, addNode_edges]
          exact insertNew_nodup (u, v) h3
        have k4 : ((buildStep st ir).node_data.map fun nr => ((nr.lon, nr.lat) : Point))
            = (buildStep st ir).seen_nodes := by
          rw [show buildStep st ir = buildStep st (ir.1, ir.2) from by rw [Prod.mk.eta]]
          rw [hN, hS, recordNode_map v (recordNode_map u h4)]
        have k5 : (((buildStep st ir).node_data.all fun nr =>
            decide (nr.node_id = quantKey (nr.lon, nr.lat))) = true) := by
          rw [show buildStep st ir = buildStep st (ir.1, ir.2) from by rw [Prod.mk.eta]]
          rw [hN]
          exact recordNode_all_ids v (recordNode_all_ids u h5)
        obtain ⟨g1, g2, g3, g4, g5, g6, g7, g8⟩ := ih (buildStep st ir) k1 k2 k3 k4 k5
        refine ⟨g1, g2, g3, g4, g5, fun p => ?_, fun e => ?_, ?_⟩
        · rw [g6 p, show buildStep st ir = buildStep st (ir.1, ir.2) from by
            rw [Prod.mk.eta], hS,
            show ((ir :: rest).map Prod.snd).flatMap rowEndpoints
              = rowEndpoints ir.2 ++ (rest.map Prod.snd).flatMap rowEndpoints from by
            simp, hre]
          rw [insertNew_mem, insertNew_mem]
          simp only [List.mem_append, List.mem_cons, List.mem_singleton]
          tauto
        · rw [g7 e, show buildStep st ir = buildStep st (ir.1, ir.2) from by
            rw [Prod.mk.eta], hG, addEdge_edges, addNode_edges, addNode_edges,
            show ((ir :: rest).map Prod.snd).flatMap rowEdgePair
              = rowEdgePair ir.2 ++ (rest.map Prod.snd).flatMap rowEdgePair from by
            simp, hrp]
          rw [insertNew_mem]
          simp only [List.mem_append, List.mem_singleton]
          tauto
        · rw [g8, show buildStep st ir = buildStep st (ir.1, ir.2) from by
            rw [Prod.mk.eta], hE,
            show ((ir :: rest).map Prod.snd).flatMap rowEdgePair
              = rowEdgePair ir.2 ++ (rest.map Prod.snd).flatMap rowEdgePair from by
            simp, hrp]
          simp only [List.length_append, List.length_cons, List.length_nil]
          omega

/-- C3 amended: the assembled graph has one node per distinct exact
endpoint coordinate and one directed edge per distinct exact ordered
endpoint pair of the non degenerate segments (NetworkX `DiGraph` keeps a
single edge per ordered pair); the edge table has exactly one row per
non degenerate segment, and the node table has exactly one row per graph
node. The claimed counts (distinct 5 decimal quantized coordinates, and
all N segments as graph edges) fail, see the counterexample. -/
theorem graph_cardinality_exact_spec (rows : List LineRow) :
    (build_graph_and_csvs rows).G.nodes.length
        = numDistinct (rows.flatMap rowEndpoints)
    ∧ (build_graph_and_csvs rows).G.edges.length
        = numDistinct (rows.flatMap rowEdgePair)
    ∧ (build_graph_and_csvs rows).edge_data.length
        = (rows.flatMap rowEdgePair).length
    ∧ (build_graph_and_csvs rows).node_data.length
        = (build_graph_and_csvs rows).G.nodes.length := by
  obtain ⟨g1, g2, g3, g4, g5, g6, g7, g8⟩ :=
    build_fold_inv rows.enum
      { G := { nodes := [], edges := [] }, node_data := [], edge_data := [],
        seen_nodes := [] }
      List.nodup_nil rfl List.nodup_nil rfl rfl
  have hb : build_graph_and_csvs rows = rows.enum.foldl buildStep
      { G := { nodes := [], edges := [] }, node_data := [], edge_data := [],
        seen_nodes := [] } := rfl
  have hsnd : rows.enum.map Prod.snd = rows := List.enum_map_snd rows
  rw [hsnd] at g6 g7 g8
  refine ⟨?_, ?_, ?_, ?_⟩
  · rw [hb, g2, ← List.toFinset_card_of_nodup g1]
    unfold numDistinct
    congr 1
    refine Finset.ext fun p => ?_
    rw [List.mem_toFinset, List.mem_toFinset, g6 p]
    simp
  · rw [hb, ← List.toFinset_card_of_nodup g3]
    unfold numDistinct
    congr 1
    refine Finset.ext fun e => ?_
    rw [List.mem_toFinset, List.mem_toFinset, g7 e]
    simp
  · rw [hb, g8]
    simp
  · rw [hb, g2, ← g4, List.length_map]

/-- C2 amended: the node table deduplicates by the exact raw coordinate
pair, not by the quantized key: its rows carry pairwise distinct raw
coordinates, a coordinate appears as a row exactly when it occurs as an
endpoint of some non degenerate segment (so the outcome is independent
of processing order), and every row carries the quantized key of its own
coordinates as node id — hence equal keys yield equal node id strings,
but two different raw coordinates sharing a key yield two table rows
with the same id, see the counterexample. -/
theorem node_dedup_exact_spec (rows : List LineRow) :
    ((build_graph_and_csvs rows).node_data.map fun nr => ((nr.lon, nr.lat) : Point)).Nodup
    ∧ (∀ p : Point,
        p ∈ ((build_graph_and_csvs rows).node_data.map fun nr => ((nr.lon, nr.lat) : Point))
          ↔ p ∈ rows.flatMap rowEndpoints)
    ∧ ((build_graph_and_csvs rows).node_data.all fun nr =>
        decide (nr.node_id = quantKey (nr.lon, nr.lat))) = true := by
  obtain ⟨g1, g2, g3, g4, g5, g6, g7, g8⟩ :=
    build_fold_inv rows.enum
      { G := { nodes := [], edges := [] }, node_data := [], edge_data := [],
        seen_nodes := [] }
      List.nodup_nil rfl List.nodup_nil rfl rfl
  have hb : build_graph_and_csvs rows = rows.enum.foldl buildStep
      { G := { nodes := [], edges := [] }, node_data := [], edge_data := [],
        seen_nodes := [] } := rfl
  have hsnd : rows.enum.map Prod.snd = rows := List.enum_map_snd rows
  rw [hsnd] at g6
  refine ⟨?_, fun p => ?_, ?_⟩
  · rw [hb, g4]
    exact g1
  · rw [hb, g4, g6 p]
    simp
  · rw [hb]
    exact g5

theorem quantKey_zero : quantKey ((0 : ℝ), (0 : ℝ)) = (0, 0) := by
  unfold quantKey
  norm_num

theorem quantKey_one : quantKey ((1 : ℝ), (0 : ℝ)) = (100000, 0) := by
  unfold quantKey
  rw [show (1 : ℝ) * 100000 = ((100000 : ℕ) : ℝ) by norm_num, round_natCast,
    show (0 : ℝ) * 100000 = ((0 : ℕ) : ℝ) by norm_num, round_natCast]
  rfl

theorem quantKey_two : quantKey ((2 : ℝ), (0 : ℝ)) = (200000, 0) := by
  unfold quantKey
  rw [show (2 : ℝ) * 100000 = ((200000 : ℕ) : ℝ) by norm_num, round_natCast,
    show (0 : ℝ) * 100000 = ((0 : ℕ) : ℝ) by norm_num, round_natCast]
  rfl

theorem quantKey_eps : quantKey ((1 / 1000000 : ℝ), (0 : ℝ)) = (0, 0) := by
  unfold quantKey
  rw [show (1 / 1000000 : ℝ) * 100000 = 1 / 10 by norm_num, round_eq,
    show (1 : ℝ) / 10 + 1 / 2 = 3 / 5 by norm_num,
    show (⌊(3 / 5 : ℝ)⌋ : ℤ) = 0 from Int.floor_eq_iff.mpr (by norm_num)]
  norm_num

/-- First example segment for the node dedup counterexample. -/
def exDupR0 : LineRow :=
  { river_name := "Indus", geometry := some [((0 : ℝ), (0 : ℝ)), (1, 0)] }

/-- Second example segment: its start point differs from the first
start point by a millionth of a degree, so both quantize to the same
five decimal key while being distinct raw coordinates. -/
def exDupR1 : LineRow :=
  { river_name := "Sutlej", geometry := some [((1 / 1000000 : ℝ), (0 : ℝ)), (1, 0)] }

/-- The two segment collection exercising the node dedup. -/
def exDup : List LineRow := [exDupR0, exDupR1]

/-- The empty assembler state. -/
def emptyBuild : BuildState :=
  { G := { nodes := [], edges := [] }, node_data := [], edge_data := [],
    seen_nodes := [] }

theorem exDup_node_data :
    (build_graph_and_csvs exDup).node_data
      = [{ node_id := (0, 0), lon := 0, lat := 0 },
         { node_id := (100000, 0), lon := 1, lat := 0 },
         { node_id := (0, 0), lon := 1 / 1000000, lat := 0 }] := by
  have hne10 : ¬ (((1 : ℝ), (0 : ℝ)) : Point) ∈ ([((0 : ℝ), (0 : ℝ))] : List Point) := by
    simp [Prod.ext_iff]
  have hneps : ¬ (((1 / 1000000 : ℝ), (0 : ℝ)) : Point)
      ∈ ([((0 : ℝ), (0 : ℝ)), ((1 : ℝ), (0 : ℝ))] : List Point) := by
    simp only [List.mem_cons, List.mem_singleton, Prod.ext_iff, not_or]
    norm_num
  have hmem10 : (((1 : ℝ), (0 : ℝ)) : Point)
      ∈ ([((0 : ℝ), (0 : ℝ)), ((1 : ℝ), (0 : ℝ))] : List Point)
        ++ [((1 / 1000000 : ℝ), (0 : ℝ))] := by
    simp
  have hs1 : (buildStep emptyBuild (0, exDupR0)).seen_nodes
      = [((0 : ℝ), (0 : ℝ)), ((1 : ℝ), (0 : ℝ))] := by
    rw [@buildStep_seen emptyBuild 0 exDupR0
        [((0 : ℝ), (0 : ℝ)), ((1 : ℝ), (0 : ℝ))] rfl (by norm_num),
      show ([((0 : ℝ), (0 : ℝ)), ((1 : ℝ), (0 : ℝ))] : List Point).headD (0, 0)
        = ((0 : ℝ), (0 : ℝ)) from rfl,
      show ([((0 : ℝ), (0 : ℝ)), ((1 : ℝ), (0 : ℝ))] : List Point).getLastD (0, 0)
        = ((1 : ℝ), (0 : ℝ)) from rfl,
      show emptyBuild.seen_nodes = [] from rfl,
      insertNew_of_not_mem (by
        rw [insertNew_of_not_mem (by simp)]
        exact hne10),
      insertNew_of_not_mem (by simp)]
    rfl
  have hn1 : (buildStep emptyBuild (0, exDupR0)).node_data
      = [{ node_id := quantKey ((0 : ℝ), (0 : ℝ)), lon := 0, lat := 0 },
         { node_id := quantKey ((1 : ℝ), (0 : ℝ)), lon := 1, lat := 0 }] := by
    rw [@buildStep_node_data emptyBuild 0 exDupR0
        [((0 : ℝ), (0 : ℝ)), ((1 : ℝ), (0 : ℝ))] rfl (by norm_num),
      show ([((0 : ℝ), (0 : ℝ)), ((1 : ℝ), (0 : ℝ))] : List Point).headD (0, 0)
        = ((0 : ℝ), (0 : ℝ)) from rfl,
      show ([((0 : ℝ), (0 : ℝ)), ((1 : ℝ), (0 : ℝ))] : List Point).getLastD (0, 0)
        = ((1 : ℝ), (0 : ℝ)) from rfl,
      show emptyBuild.seen_nodes = [] from rfl,
      show emptyBuild.node_data = [] from rfl,
      recordNode_of_not_mem (by
        rw [insertNew_of_not_mem (by simp)]
        exact hne10),
      recordNode_of_not_mem (by simp)]
    rfl
  have hfold : build_graph_and_csvs exDup
      = buildStep (buildStep emptyBuild (0, exDupR0)) (1, exDupR1) := by
    show exDup.enum.foldl buildStep emptyBuild = _
    rw [show exDup.enum = [(0, exDupR0), (1, exDupR1)] from rfl,
      List.foldl_cons, List.foldl_cons, List.foldl_nil]
  rw [hfold,
    @buildStep_node_data (buildStep emptyBuild (0, exDupR0)) 1 exDupR1
      [((1 / 1000000 : ℝ), (0 : ℝ)), ((1 : ℝ), (0 : ℝ))] rfl (by norm_num),
    show ([((1 / 1000000 : ℝ), (0 : ℝ)), ((1 : ℝ), (0 : ℝ))] : List Point).headD (0, 0)
      = ((1 / 1000000 : ℝ), (0 : ℝ)) from rfl,
    show ([((1 / 1000000 : ℝ), (0 : ℝ)), ((1 : ℝ), (0 : ℝ))] : List Point).getLastD (0, 0)
      = ((1 : ℝ), (0 : ℝ)) from rfl,
    hs1, hn1,
    recordNode_of_not_mem hneps, insertNew_of_not_mem hneps,
    recordNode_of_mem hmem10,
    quantKey_zero, quantKey_one, quantKey_eps]
  rfl

/-- C2 counterexample: the coordinates (0, 0) and (0.000001, 0) both
occur as endpoints, quantize to the same five decimal key, yet the node
table holds two distinct rows carrying that same node id: the dedup is
by exact raw coordinate, not by the quantized key. -/
theorem node_dedup_quantized_counterexample :
    (((0 : ℝ), (0 : ℝ)) : Point) ∈ exDup.flatMap rowEndpoints
    ∧ (((1 / 1000000 : ℝ), (0 : ℝ)) : Point) ∈ exDup.flatMap rowEndpoints
    ∧ quantKey ((0 : ℝ), (0 : ℝ)) = quantKey ((1 / 1000000 : ℝ), (0 : ℝ))
    ∧ ((build_graph_and_csvs exDup).node_data.filter fun nr =>
        decide (nr.node_id = quantKey ((0 : ℝ), (0 : ℝ)))).length = 2 := by
  have he0 : rowEndpoints exDupR0 = [((0 : ℝ), (0 : ℝ)), ((1 : ℝ), (0 : ℝ))] :=
    (@rowEndpoints_some exDupR0 [((0 : ℝ), (0 : ℝ)), ((1 : ℝ), (0 : ℝ))]
      rfl (by norm_num)).1
  have he1 : rowEndpoints exDupR1
      = [((1 / 1000000 : ℝ), (0 : ℝ)), ((1 : ℝ), (0 : ℝ))] :=
    (@rowEndpoints_some exDupR1 [((1 / 1000000 : ℝ), (0 : ℝ)), ((1 : ℝ), (0 : ℝ))]
      rfl (by norm_num)).1
  have hflat : exDup.flatMap rowEndpoints
      = [((0 : ℝ), (0 : ℝ)), ((1 : ℝ), (0 : ℝ)),
         ((1 / 1000000 : ℝ), (0 : ℝ)), ((1 : ℝ), (0 : ℝ))] := by
    show rowEndpoints exDupR0 ++ (rowEndpoints exDupR1 ++ []) = _
    rw [he0, he1]
    rfl
  refine ⟨?_, ?_, ?_, ?_⟩
  · rw [hflat]
    simp
  · rw [hflat]
    simp
  · rw [quantKey_zero, quantKey_eps]
  · rw [exDup_node_data, quantKey_zero]
    rw [List.filter_cons, List.filter_cons, List.filter_cons, List.filter_nil]
    norm_num

/-- Three vertex segment sharing both endpoints with `exDupR0`. -/
def exCardR1 : LineRow :=
  { river_name := "Panjnad"
    geometry := some [((0 : ℝ), (0 : ℝ)), ((1 / 2 : ℝ), (0 : ℝ)), (1, 0)] }

/-- Segment whose start point quantizes like (0, 0) without being it. -/
def exCardR2 : LineRow :=
  { river_name := "Chenab", geometry := some [((1 / 1000000 : ℝ), (0 : ℝ)), (2, 0)] }

/-- Three non degenerate segments: a duplicate endpoint pair and a
quantization collision. -/
def exCard : List LineRow := [exDupR0, exCardR1, exCardR2]

theorem exCard_G :
    (build_graph_and_csvs exCard).G.nodes
        = [((0 : ℝ), (0 : ℝ)), ((1 : ℝ), (0 : ℝ)), ((1 / 1000000 : ℝ), (0 : ℝ)),
           ((2 : ℝ), (0 : ℝ))]
    ∧ (build_graph_and_csvs exCard).G.edges
        = [(((0 : ℝ), (0 : ℝ)), ((1 : ℝ), (0 : ℝ))),
           (((1 / 1000000 : ℝ), (0 : ℝ)), ((2 : ℝ), (0 : ℝ)))] := by
  have hne10 : ¬ (((1 : ℝ), (0 : ℝ)) : Point) ∈ ([((0 : ℝ), (0 : ℝ))] : List Point) := by
    simp [Prod.ext_iff]
  have hfold : build_graph_and_csvs exCard
      = buildStep (buildStep (buildStep emptyBuild (0, exDupR0)) (1, exCardR1))
          (2, exCardR2) := by
    show exCard.enum.foldl buildStep emptyBuild = _
    rw [show exCard.enum = [(0, exDupR0), (1, exCardR1), (2, exCardR2)] from rfl,
      List.foldl_cons, List.foldl_cons, List.foldl_cons, List.foldl_nil]
  have hG1 : (buildStep emptyBuild (0, exDupR0)).G
      = addEdge (addNode (addNode emptyBuild.G ((0 : ℝ), (0 : ℝ))) ((1 : ℝ), (0 : ℝ)))
          ((0 : ℝ), (0 : ℝ)) ((1 : ℝ), (0 : ℝ)) := by
    rw [@buildStep_G emptyBuild 0 exDupR0
        [((0 : ℝ), (0 : ℝ)), ((1 : ℝ), (0 : ℝ))] rfl (by norm_num)]
    rfl
  have hG1n : (buildStep emptyBuild (0, exDupR0)).G.nodes
      = [((0 : ℝ), (0 : ℝ)), ((1 : ℝ), (0 : ℝ))] := by
    rw [hG1, addEdge_nodes, addNode_nodes, addNode_nodes,
      show emptyBuild.G.nodes = [] from rfl,
      insertNew_of_not_mem (by
        rw [insertNew_of_not_mem (by simp)]
        exact hne10),
      insertNew_of_not_mem (by simp)]
    rfl
  have hG1e : (buildStep emptyBuild (0, exDupR0)).G.edges
      = [(((0 : ℝ), (0 : ℝ)), ((1 : ℝ), (0 : ℝ)))] := by
    rw [hG1, addEdge_edges, addNode_edges, addNode_edges,
      show emptyBuild.G.edges = [] from rfl, insertNew_of_not_mem (by simp)]
    rfl
  have hG2 : (buildStep (buildStep emptyBuild (0, exDupR0)) (1, exCardR1)).G
      = addEdge (addNode (addNode (buildStep emptyBuild (0, exDupR0)).G
          ((0 : ℝ), (0 : ℝ))) ((1 : ℝ), (0 : ℝ)))
          ((0 : ℝ), (0 : ℝ)) ((1 : ℝ), (0 : ℝ)) := by
    rw [@buildStep_G (buildStep emptyBuild (0, exDupR0)) 1 exCardR1
        [((0 : ℝ), (0 : ℝ)), ((1 / 2 : ℝ), (0 : ℝ)), ((1 : ℝ), (0 : ℝ))] rfl (by norm_num)]
    rfl
  have hG2n : (buildStep (buildStep emptyBuild (0, exDupR0)) (1, exCardR1)).G.nodes
      = [((0 : ℝ), (0 : ℝ)), ((1 : ℝ), (0 : ℝ))] := by
    rw [hG2, addEdge_nodes, addNode_nodes, addNode_nodes, hG1n,
      insertNew_of_mem (by
        rw [insertNew_of_mem (by simp)]
        simp),
      insertNew_of_mem (by simp)]
  have hG2e : (buildStep (buildStep emptyBuild (0, exDupR0)) (1, exCardR1)).G.edges
      = [(((0 : ℝ), (0 : ℝ)), ((1 : ℝ), (0 : ℝ)))] := by
    rw [hG2, addEdge_edges, addNode_edges, addNode_edges, hG1e,
      insertNew_of_mem (by simp)]
  constructor
  · rw [hfold,
      @buildStep_G (buildStep (buildStep emptyBuild (0, exDupR0)) (1, exCardR1)) 2
        exCardR2 [((1 / 1000000 : ℝ), (0 : ℝ)), ((2 : ℝ), (0 : ℝ))] rfl (by norm_num),
      show ([((1 / 1000000 : ℝ), (0 : ℝ)), ((2 : ℝ), (0 : ℝ))] : List Point).headD (0, 0)
        = ((1 / 1000000 : ℝ), (0 : ℝ)) from rfl,
      show ([((1 / 1000000 : ℝ), (0 : ℝ)), ((2 : ℝ), (0 : ℝ))] : List Point).getLastD (0, 0)
        = ((2 : ℝ), (0 : ℝ)) from rfl,
      addEdge_nodes, addNode_nodes, addNode_nodes, hG2n,
      insertNew_of_not_mem (by
        rw [insertNew_of_not_mem (by
          simp only [List.mem_cons, List.mem_singleton, Prod.ext_iff, not_or]
          norm_num)]
        simp only [List.mem_append, List.mem_cons, List.mem_singleton, Prod.ext_iff,
          not_or]
        norm_num),
      insertNew_of_not_mem (by
        simp only [List.mem_cons, List.mem_singleton, Prod.ext_iff, not_or]
        norm_num)]
    rfl
  · rw [hfold,
      @buildStep_G (buildStep (buildStep emptyBuild (0, exDupR0)) (1, exCardR1)) 2
        exCardR2 [((1 / 1000000 : ℝ), (0 : ℝ)), ((2 : ℝ), (0 : ℝ))] rfl (by norm_num),
      show ([((1 / 1000000 : ℝ), (0 : ℝ)), ((2 : ℝ), (0 : ℝ))] : List Point).headD (0, 0)
        = ((1 / 1000000 : ℝ), (0 : ℝ)) from rfl,
      show ([((1 / 1000000 : ℝ), (0 : ℝ)), ((2 : ℝ), (0 : ℝ))] : List Point).getLastD (0, 0)
        = ((2 : ℝ), (0 : ℝ)) from rfl,
      addEdge_edges, addNode_edges, addNode_edges, hG2e,
      insertNew_of_not_mem (by
        intro hmem
        rw [List.mem_singleton] at hmem
        have h2 := congrArg Prod.fst (congrArg Prod.fst hmem)
        norm_num at h2)]
    rfl

/-- C3 counterexample: on three non degenerate segments the graph holds
four nodes while only three distinct quantized endpoint keys exist (the
raw coordinates (0,0) and (0.000001, 0) share a key but are distinct
graph nodes), and it holds two directed edges rather than three because
`nx.DiGraph` collapses the duplicated endpoint pair: the claimed
cardinalities K and N both fail. -/
theorem graph_cardinality_counterexample :
    (build_graph_and_csvs exCard).G.nodes.length = 4
    ∧ numDistinct ((exCard.flatMap rowEndpoints).map quantKey) = 3
    ∧ (build_graph_and_csvs exCard).G.edges.length = 2
    ∧ (exCard.flatMap rowEdgePair).length = 3
    ∧ ¬ ((build_graph_and_csvs exCard).G.nodes.length
            = numDistinct ((exCard.flatMap rowEndpoints).map quantKey)
          ∧ (build_graph_and_csvs exCard).G.edges.length
            = (exCard.flatMap rowEdgePair).length) := by
  have hflat : exCard.flatMap rowEndpoints
      = [((0 : ℝ), (0 : ℝ)), ((1 : ℝ), (0 : ℝ)), ((0 : ℝ), (0 : ℝ)),
         ((1 : ℝ), (0 : ℝ)), ((1 / 1000000 : ℝ), (0 : ℝ)), ((2 : ℝ), (0 : ℝ))] := by
    show rowEndpoints exDupR0 ++ (rowEndpoints exCardR1 ++ (rowEndpoints exCardR2 ++ []))
        = _
    rw [(@rowEndpoints_some exDupR0 [((0 : ℝ), (0 : ℝ)), ((1 : ℝ), (0 : ℝ))]
        rfl (by norm_num)).1,
      (@rowEndpoints_some exCardR1
        [((0 : ℝ), (0 : ℝ)), ((1 / 2 : ℝ), (0 : ℝ)), ((1 : ℝ), (0 : ℝ))]
        rfl (by norm_num)).1,
      (@rowEndpoints_some exCardR2 [((1 / 1000000 : ℝ), (0 : ℝ)), ((2 : ℝ), (0 : ℝ))]
        rfl (by norm_num)).1]
    rfl
  have hpairs : exCard.flatMap rowEdgePair
      = [(((0 : ℝ), (0 : ℝ)), ((1 : ℝ), (0 : ℝ))),
         (((0 : ℝ), (0 : ℝ)), ((1 : ℝ), (0 : ℝ))),
         (((1 / 1000000 : ℝ), (0 : ℝ)), ((2 : ℝ), (0 : ℝ)))] := by
    show rowEdgePair exDupR0 ++ (rowEdgePair exCardR1 ++ (rowEdgePair exCardR2 ++ []))
        = _
    rw [(@rowEndpoints_some exDupR0 [((0 : ℝ), (0 : ℝ)), ((1 : ℝ), (0 : ℝ))]
        rfl (by norm_num)).2,
      (@rowEndpoints_some exCardR1
        [((0 : ℝ), (0 : ℝ)), ((1 / 2 : ℝ), (0 : ℝ)), ((1 : ℝ), (0 : ℝ))]
        rfl (by norm_num)).2,
      (@rowEndpoints_some exCardR2 [((1 / 1000000 : ℝ), (0 : ℝ)), ((2 : ℝ), (0 : ℝ))]
        rfl (by norm_num)).2]
    rfl
  have hK : numDistinct ((exCard.flatMap rowEndpoints).map quantKey) = 3 := by
    rw [hflat, List.map_cons, List.map_cons, List.map_cons, List.map_cons,
      List.map_cons, List.map_cons, List.map_nil, quantKey_zero, quantKey_one,
      quantKey_eps, quantKey_two]
    decide
  have h1 : (build_graph_and_csvs exCard).G.nodes.length = 4 := by
    rw [exCard_G.1]
    rfl
  have h3 : (build_graph_and_csvs exCard).G.edges.length = 2 := by
    rw [exCard_G.2]
    rfl
  have h4 : (exCard.flatMap rowEdgePair).length = 3 := by
    rw [hpairs]
    rfl
  refine ⟨h1, hK, h3, h4, ?_⟩
  intro hcl
  rw [h1, hK] at hcl
  exact absurd hcl.1 (by norm_num)

theorem distScan_fst (p : Point) :
    ∀ (cs : List Point) (dc : ℝ × Point), distScan p cs = some dc →
      dc.1 = dist p dc.2 := by
  intro cs
  induction cs with
  | nil => intro dc h; cases h
  | cons a rest ih =>
    cases rest with
    | nil => intro dc h; cases h
    | cons b rest' =>
      intro dc h
      simp only [distScan] at h
      cases hrec : distScan p (b :: rest') with
      | none =>
        simp only [hrec] at h
        cases h
        rfl
      | some dc' =>
        simp only [hrec] at h
        by_cases hlt : dc'.1 < dist p (closestPtSeg p a b)
        · rw [if_pos hlt] at h
          cases h
          exact ih _ hrec
        · rw [if_neg hlt] at h
          cases h
          rfl

theorem distScan_short {p : Point} {cs : List Point} (h : cs.length < 2) :
    distScan p cs = none := by
  cases cs with
  | nil => rfl
  | cons a rest =>
    cases rest with
    | nil => rfl
    | cons b rest' => exact absurd h (by simp)

theorem distScan_isSome {p : Point} {a b : Point} {rest : List Point} :
    (distScan p (a :: b :: rest)).isSome := by
  simp only [distScan]
  cases hrec : distScan p (b :: rest) with
  | none => rfl
  | some dc' =>
    dsimp only
    split <;> rfl

theorem distScan_some_length {p : Point} {cs : List Point} {dc : ℝ × Point}
    (h : distScan p cs = some dc) : 2 ≤ cs.length := by
  by_contra hc
  rw [distScan_short (by omega)] at h
  cases h

/-- Membership of a point in a bounding box. -/
def inBBox (q : Point) (lohi : Point × Point) : Prop :=
  lohi.1.1 ≤ q.1 ∧ q.1 ≤ lohi.2.1 ∧ lohi.1.2 ≤ q.2 ∧ q.2 ≤ lohi.2.2

theorem between_scalar {x y t : ℝ} (h0 : 0 ≤ t) (h1 : t ≤ 1) :
    min x y ≤ x + t * (y - x) ∧ x + t * (y - x) ≤ max x y := by
  rcases le_total x y with h | h
  · rw [min_eq_left h, max_eq_right h]
    constructor <;> nlinarith
  · rw [min_eq_right h, max_eq_left h]
    constructor <;> nlinarith

theorem closestPtSeg_between (p a b : Point) :
    min a.1 b.1 ≤ (closestPtSeg p a b).1 ∧ (closestPtSeg p a b).1 ≤ max a.1 b.1
    ∧ min a.2 b.2 ≤ (closestPtSeg p a b).2 ∧ (closestPtSeg p a b).2 ≤ max a.2 b.2 := by
  unfold closestPtSeg
  have h0 : 0 ≤ min 1 (max 0
      (((p.1 - a.1) * (b.1 - a.1) + (p.2 - a.2) * (b.2 - a.2))
        / ((b.1 - a.1) ^ 2 + (b.2 - a.2) ^ 2))) :=
    le_min (by norm_num) (le_max_left 0 _)
  have h1 : min 1 (max 0
      (((p.1 - a.1) * (b.1 - a.1) + (p.2 - a.2) * (b.2 - a.2))
        / ((b.1 - a.1) ^ 2 + (b.2 - a.2) ^ 2))) ≤ 1 := min_le_left 1 _
  unfold lerp
  exact ⟨(between_scalar h0 h1).1, (between_scalar h0 h1).2,
    (between_scalar h0 h1).1, (between_scalar h0 h1).2⟩

theorem bbox?_cons_isSome (x : Point) (l : List Point) :
    ∃ lohi, bbox? (x :: l) = some lohi := by
  simp only [bbox?]
  cases hb : bbox? l with
  | none => exact ⟨(x, x), rfl⟩
  | some lohi => exact ⟨_, rfl⟩

theorem bbox?_mem :
    ∀ (cs : List Point) (lohi : Point × Point), bbox? cs = some lohi →
      ∀ q ∈ cs, inBBox q lohi := by
  intro cs
  induction cs with
  | nil => intro lohi h q hq; cases hq
  | cons x l ih =>
    intro lohi h q hq
    simp only [bbox?] at h
    cases hb : bbox? l with
    | none =>
      rw [hb] at h
      cases h
      have hl : l = [] := by
        cases l with
        | nil => rfl
        | cons y l' =>
          obtain ⟨lohi', h'⟩ := bbox?_cons_isSome y l'
          rw [h'] at hb
          cases hb
      subst hl
      rcases List.mem_singleton.mp hq with rfl
      exact ⟨le_refl _, le_refl _, le_refl _, le_refl _⟩
    | some lohi' =>
      rw [hb] at h
      cases h
      rcases List.mem_cons.mp hq with rfl | hq'
      · exact ⟨min_le_left _ _, le_max_left _ _, min_le_left _ _, le_max_left _ _⟩
      · obtain ⟨g1, g2, g3, g4⟩ := ih lohi' hb q hq'
        exact ⟨le_trans (min_le_right _ _) g1, le_trans g2 (le_max_right _ _),
          le_trans (min_le_right _ _) g3, le_trans g4 (le_max_right _ _)⟩

theorem bbox?_cons_mono {x : Point} {l : List Point} {lohi lohi' : Point × Point}
    (h : bbox? (x :: l) = some lohi) (h' : bbox? l = some lohi') {q : Point}
    (hq : inBBox q lohi') : inBBox q lohi := by
  simp only [bbox?] at h
  rw [h'] at h
  cases h
  obtain ⟨g1, g2, g3, g4⟩ := hq
  exact ⟨le_trans (min_le_right _ _) g1, le_trans g2 (le_max_right _ _),
    le_trans (min_le_right _ _) g3, le_trans g4 (le_max_right _ _)⟩

theorem distScan_inBBox (p : Point) :
    ∀ (cs : List Point) (dc : ℝ × Point) (lohi : Point × Point),
      distScan p cs = some dc → bbox? cs = some lohi → inBBox dc.2 lohi := by
  intro cs
  induction cs with
  | nil => intro dc lohi h _; cases h
  | cons a rest ih =>
    cases rest with
    | nil => intro dc lohi h _; cases h
    | cons b rest' =>
      intro dc lohi h hbb
      have hmema : inBBox a lohi := bbox?_mem _ lohi hbb a (List.mem_cons_self a _)
      have hmemb : inBBox b lohi :=
        bbox?_mem _ lohi hbb b (List.mem_cons_of_mem a (List.mem_cons_self b _))
      have hclose : inBBox (closestPtSeg p a b) lohi := by
        obtain ⟨c1, c2, c3, c4⟩ := closestPtSeg_between p a b
        obtain ⟨a1, a2, a3, a4⟩ := hmema
        obtain ⟨b1, b2, b3, b4⟩ := hmemb
        refine ⟨le_trans (le_min a1 b1) c1, le_trans c2 (max_le a2 b2),
          le_trans (le_min a3 b3) c3, le_trans c4 (max_le a4 b4)⟩
      simp only [distScan] at h
      cases hrec : distScan p (b :: rest') with
      | none =>
        simp only [hrec] at h
        cases h
        exact hclose
      | some dc' =>
        simp only [hrec] at h
        by_cases hlt : dc'.1 < dist p (closestPtSeg p a b)
        · rw [if_pos hlt] at h
          cases h
          obtain ⟨lohi', hb'⟩ := bbox?_cons_isSome b rest'
          exact bbox?_cons_mono hbb hb' (ih _ lohi' hrec hb')
        · rw [if_neg hlt] at h
          cases h
          exact hclose

theorem abs_sub_le_dist (p q : Point) :
    |q.1 - p.1| ≤ dist p q ∧ |q.2 - p.2| ≤ dist p q := by
  unfold dist
  constructor
  · rw [← Real.sqrt_sq_eq_abs]
    exact Real.sqrt_le_sqrt (by nlinarith [sq_nonneg (q.2 - p.2)])
  · rw [← Real.sqrt_sq_eq_abs]
    exact Real.sqrt_le_sqrt (by nlinarith [sq_nonneg (q.1 - p.1)])

theorem mem_candidateIdx {rows : List LineRow} {p : Point} {tol : ℝ} {j : ℕ}
    {ds : List Point} {dc : ℝ × Point}
    (hbind : ((rows[j]?).bind fun r => r.geometry) = some ds)
    (hsc : distScan p ds = some dc) (hd : dc.1 < tol) :
    j ∈ candidateIdx rows p tol := by
  have hjlt : j < rows.length := by
    by_contra hc
    rw [List.getElem?_eq_none (by omega)] at hbind
    simp at hbind
  unfold candidateIdx
  rw [List.mem_filter]
  refine ⟨List.mem_range.mpr hjlt, ?_⟩
  rw [decide_eq_true_eq, hbind]
  have hlen := distScan_some_length hsc
  cases ds with
  | nil => simp at hlen
  | cons d0 drest =>
    obtain ⟨lohi, hbb⟩ := bbox?_cons_isSome d0 drest
    have inB := distScan_inBBox p (d0 :: drest) dc lohi hsc hbb
    have hdist : dist p dc.2 < tol := by
      rw [← distScan_fst p _ dc hsc]
      exact hd
    have h1 := abs_le.mp (abs_sub_le_dist p dc.2).1
    have h2 := abs_le.mp (abs_sub_le_dist p dc.2).2
    obtain ⟨i1, i2, i3, i4⟩ := inB
    simp only [bboxHit, hbb]
    exact ⟨by linarith [h1.2], by linarith [h1.1], by linarith [h2.2],
      by linarith [h2.1]⟩

/-- Invariant of the candidate loop state of source lines 93 to 102: either
no target has been found and the best distance is still the tolerance, or
the recorded target is another row with a real geometry whose line distance
equals the best distance, strictly below the tolerance. -/
def scanInv (rows : List LineRow) (i : ℕ) (p : Point) (tol : ℝ)
    (st : ℝ × Option (ℕ × List Point)) : Prop :=
  (st.2 = none ∧ st.1 = tol)
  ∨ ∃ j ds dc, st.2 = some (j, ds) ∧ j ≠ i
      ∧ ((rows[j]?).bind fun r => r.geometry) = some ds
      ∧ distScan p ds = some dc ∧ st.1 = dc.1 ∧ st.1 < tol

theorem scanStep_inv {rows : List LineRow} {i : ℕ} {p : Point} {tol : ℝ}
    {st : ℝ × Option (ℕ × List Point)} (h : scanInv rows i p tol st) (j : ℕ) :
    scanInv rows i p tol (scanStep rows i p st j) := by
  by_cases hji : j = i
  · rw [scanStep_eq_self hji]
    exact h
  · cases hbind : ((rows[j]?).bind fun r => r.geometry) with
    | none =>
      rw [scanStep_eq_nogeom hji hbind]
      exact h
    | some ds =>
      cases hsc : distScan p ds with
      | none =>
        rw [scanStep_eq_nodist hji hbind hsc]
        exact h
      | some dc =>
        rw [scanStep_eq_dist hji hbind hsc]
        by_cases hlt : dc.1 < st.1
        · rw [if_pos hlt]
          have hsttol : st.1 ≤ tol := by
            rcases h with ⟨_, h2⟩ | ⟨j', ds', dc', _, _, _, _, _, hlt'⟩
            · exact le_of_eq h2
            · exact le_of_lt hlt'
          exact Or.inr ⟨j, ds, dc, rfl, hji, hbind, hsc, rfl,
            lt_of_lt_of_le hlt hsttol⟩
        · rw [if_neg hlt]
          exact h

theorem scan_foldl_inv (rows : List LineRow) (i : ℕ) (p : Point) (tol : ℝ) :
    ∀ (cand : List ℕ) (st : ℝ × Option (ℕ × List Point)),
      scanInv rows i p tol st →
      scanInv rows i p tol (cand.foldl (scanStep rows i p) st) := by
  intro cand
  induction cand with
  | nil => intro st h; exact h
  | cons c rest ih => intro st h; exact ih _ (scanStep_inv h c)

theorem scanStep_fst_le (rows : List LineRow) (i : ℕ) (p : Point)
    (st : ℝ × Option (ℕ × List Point)) (j : ℕ) :
    (scanStep rows i p st j).1 ≤ st.1 := by
  by_cases hji : j = i
  · rw [scanStep_eq_self hji]
  · cases hbind : ((rows[j]?).bind fun r => r.geometry) with
    | none => rw [scanStep_eq_nogeom hji hbind]
    | some ds =>
      cases hsc : distScan p ds with
      | none => rw [scanStep_eq_nodist hji hbind hsc]
      | some dc =>
        rw [scanStep_eq_dist hji hbind hsc]
        by_cases hlt : dc.1 < st.1
        · rw [if_pos hlt]
          exact le_of_lt hlt
        · rw [if_neg hlt]

theorem scan_foldl_fst_le (rows : List LineRow) (i : ℕ) (p : Point) :
    ∀ (cand : List ℕ) (st : ℝ × Option (ℕ × List Point)),
      (cand.foldl (scanStep rows i p) st).1 ≤ st.1 := by
  intro cand
  induction cand with
  | nil => intro st; exact le_refl _
  | cons c rest ih =>
    intro st
    exact le_trans (ih _) (scanStep_fst_le rows i p st c)

theorem scan_foldl_min (rows : List LineRow) (i : ℕ) (p : Point) :
    ∀ (cand : List ℕ) (st : ℝ × Option (ℕ × List Point)) (j : ℕ)
      (ds : List Point) (dc : ℝ × Point),
      j ∈ cand → j ≠ i → ((rows[j]?).bind fun r => r.geometry) = some ds →
      distScan p ds = some dc →
      (cand.foldl (scanStep rows i p) st).1 ≤ dc.1 := by
  intro cand
  induction cand with
  | nil => intro st j ds dc hmem; cases hmem
  | cons c rest ih =>
    intro st j ds dc hmem hji hbind hsc
    rcases List.mem_cons.mp hmem with heq | hmem'
    · subst heq
      refine le_trans (scan_foldl_fst_le rows i p rest _) ?_
      rw [scanStep_eq_dist hji hbind hsc]
      by_cases hlt : dc.1 < st.1
      · rw [if_pos hlt]
      · rw [if_neg hlt]
        exact le_of_not_lt hlt
    · exact ih _ j ds dc hmem' hji hbind hsc

theorem snapRow_eq_none {rows : List LineRow} {tol : ℝ} {r : LineRow} {i : ℕ}
    {cs : List Point} (hg : r.geometry = some cs) (hne : cs.isEmpty = false)
    (hct : chooseTarget rows tol i (cs.getLastD (0, 0)) = none) :
    snapRow rows tol r i = r := by
  unfold snapRow
  simp only [hg, hne, hct]
  rfl

theorem distScan_isSome_of_len {p : Point} {cs : List Point}
    (h : 2 ≤ cs.length) : ∃ dc, distScan p cs = some dc := by
  cases cs with
  | nil => simp at h
  | cons a rest =>
    cases rest with
    | nil => simp at h
    | cons b rest' => exact Option.isSome_iff_exists.mp distScan_isSome

/-- C4: for a line at index `i` with at least two vertices and last vertex
`p`: (unchanged branch) if every other line of the collection having a real
geometry with at least two vertices lies at distance at least the tolerance
from `p`, the row passes through `snap_endpoints` unchanged; (snap branch)
if some other such line lies strictly within the tolerance, then a line
attaining the minimum distance over all other such lines is selected, the
output row keeps its name and all vertices but the last, the last vertex is
replaced by the nearest point of the selected line, and the relocation
distance is strictly below the tolerance (hence at most the tolerance).
The code reads "within tolerance" strictly: `nearest_dist` starts at the
tolerance and only a strictly smaller distance updates it (source lines 93
to 101). -/
theorem snap_endpoints_min_distance_spec
    (rows : List LineRow) (tol : ℝ) (i : ℕ) (r : LineRow) (cs : List Point)
    (hrow : rows[i]? = some r) (hg : r.geometry = some cs)
    (hlen : 2 ≤ cs.length) :
    ((∀ j rj ds, j ≠ i → rows[j]? = some rj → rj.geometry = some ds →
        2 ≤ ds.length → tol ≤ lineDist (cs.getLastD (0, 0)) ds) →
      (snap_endpoints rows tol)[i]? = some r)
    ∧ ((∃ j rj ds, j ≠ i ∧ rows[j]? = some rj ∧ rj.geometry = some ds
        ∧ 2 ≤ ds.length ∧ lineDist (cs.getLastD (0, 0)) ds < tol) →
      ∃ j rj ds, j ≠ i ∧ rows[j]? = some rj ∧ rj.geometry = some ds
        ∧ 2 ≤ ds.length
        ∧ (∀ j2 rj2 ds2, j2 ≠ i → rows[j2]? = some rj2 →
            rj2.geometry = some ds2 → 2 ≤ ds2.length →
            lineDist (cs.getLastD (0, 0)) ds ≤ lineDist (cs.getLastD (0, 0)) ds2)
        ∧ dist (cs.getLastD (0, 0)) (nearestPt (cs.getLastD (0, 0)) ds) < tol
        ∧ (snap_endpoints rows tol)[i]?
            = some { river_name := r.river_name
                     geometry := some (cs.dropLast
                       ++ [nearestPt (cs.getLastD (0, 0)) ds]) }) := by
  have hne : cs.isEmpty = false := by
    cases cs with
    | nil => simp at hlen
    | cons c0 crest => rfl
  have hgetl : (snap_endpoints rows tol)[i]? = some (snapRow rows tol r i) := by
    unfold snap_endpoints
    rw [snapRows_getElem? rows tol rows 0 i, hrow, Option.map_some', Nat.zero_add]
  have hinv : scanInv rows i (cs.getLastD (0, 0)) tol
      ((candidateIdx rows (cs.getLastD (0, 0)) tol).foldl
        (scanStep rows i (cs.getLastD (0, 0))) (tol, none)) :=
    scan_foldl_inv rows i (cs.getLastD (0, 0)) tol _ _ (Or.inl ⟨rfl, rfl⟩)
  constructor
  · intro hall
    rw [hgetl]
    cases hct : chooseTarget rows tol i (cs.getLastD (0, 0)) with
    | none => rw [snapRow_eq_none hg hne hct]
    | some jds =>
      exfalso
      unfold chooseTarget at hct
      rcases hinv with ⟨hnone, _⟩ | ⟨j, ds, dc, hsome, hji, hbind, hsc, hfst, hlt⟩
      · rw [hct] at hnone
        cases hnone
      · obtain ⟨rj, hrowj, hgj⟩ := Option.bind_eq_some.mp hbind
        have hge : tol ≤ lineDist (cs.getLastD (0, 0)) ds :=
          hall j rj ds hji hrowj hgj (distScan_some_length hsc)
        rw [show lineDist (cs.getLastD (0, 0)) ds = dc.1 from by
          unfold lineDist; rw [hsc]] at hge
        linarith [hfst, hlt, hge]
  · rintro ⟨j0, rj0, ds0, hj0i, hrow0, hg0, hlen0, hd0⟩
    obtain ⟨dc0, hsc0⟩ := distScan_isSome_of_len (p := cs.getLastD (0, 0)) hlen0
    rw [show lineDist (cs.getLastD (0, 0)) ds0 = dc0.1 from by
      unfold lineDist; rw [hsc0]] at hd0
    have hbind0 : ((rows[j0]?).bind fun r => r.geometry) = some ds0 := by
      rw [hrow0]
      exact hg0
    have hmem0 := mem_candidateIdx hbind0 hsc0 hd0
    have hminf := scan_foldl_min rows i (cs.getLastD (0, 0))
      (candidateIdx rows (cs.getLastD (0, 0)) tol) (tol, none) j0 ds0 dc0
      hmem0 hj0i hbind0 hsc0
    have hflt : ((candidateIdx rows (cs.getLastD (0, 0)) tol).foldl
        (scanStep rows i (cs.getLastD (0, 0))) (tol, none)).1 < tol :=
      lt_of_le_of_lt hminf hd0
    rcases hinv with ⟨_, hfzero⟩ | ⟨j, ds, dc, hsome, hji, hbind, hsc, hfst, hlt⟩
    · rw [hfzero] at hflt
      exact absurd hflt (lt_irrefl tol)
    · obtain ⟨rj, hrowj, hgj⟩ := Option.bind_eq_some.mp hbind
      refine ⟨j, rj, ds, hji, hrowj, hgj, distScan_some_length hsc, ?_, ?_, ?_⟩
      · intro j2 rj2 ds2 hj2i hrow2 hg2 hlen2
        have hbind2 : ((rows[j2]?).bind fun r => r.geometry) = some ds2 := by
          rw [hrow2]
          exact hg2
        obtain ⟨dc2, hsc2⟩ := distScan_isSome_of_len (p := cs.getLastD (0, 0)) hlen2
        rw [show lineDist (cs.getLastD (0, 0)) ds = dc.1 from by
            unfold lineDist; rw [hsc],
          show lineDist (cs.getLastD (0, 0)) ds2 = dc2.1 from by
            unfold lineDist; rw [hsc2]]
        by_cases hc2 : dc2.1 < tol
        · have hmem2 := mem_candidateIdx hbind2 hsc2 hc2
          have hmin2 := scan_foldl_min rows i (cs.getLastD (0, 0))
            (candidateIdx rows (cs.getLastD (0, 0)) tol) (tol, none) j2 ds2 dc2
            hmem2 hj2i hbind2 hsc2
          linarith [hfst, hmin2]
        · push_neg at hc2
          linarith [hfst, hlt, hc2]
      · rw [show nearestPt (cs.getLastD (0, 0)) ds = dc.2 from by
          unfold nearestPt; rw [hsc]]
        rw [← distScan_fst (cs.getLastD (0, 0)) ds dc hsc]
        exact hfst ▸ hlt
      · rw [hgetl]
        have hct : chooseTarget rows tol i (cs.getLastD (0, 0)) = some (j, ds) := by
          unfold chooseTarget
          exact hsome
        rw [snapRow_eq_target hg hne hct]

/-- Witness for the snap specification at the concrete two line
collection: the first line, ending at (1, 1) within tolerance 2 of the
second line, comes out of `snap_endpoints` with its last vertex moved to
the nearest point (1, 0) of the second line. -/
theorem snap_endpoints_min_distance_spec_witness :
    (snap_endpoints exMut 2)[0]?
      = some { river_name := "Jhelum"
               geometry := some [((0 : ℝ), (1 : ℝ)), ((1 : ℝ), (0 : ℝ))] } := by
  have hmain := (snap_endpoints_min_distance_spec exMut 2 0
    { river_name := "Jhelum", geometry := some [((0 : ℝ), (1 : ℝ)), (1, 1)] }
    [((0 : ℝ), (1 : ℝ)), (1, 1)] rfl rfl (by norm_num)).2
  have hld : lineDist (([((0 : ℝ), (1 : ℝ)), (1, 1)] : List Point).getLastD (0, 0))
      [((0 : ℝ), (0 : ℝ)), ((2 : ℝ), (0 : ℝ))] < 2 := by
    show lineDist ((1 : ℝ), (1 : ℝ)) [((0 : ℝ), (0 : ℝ)), ((2 : ℝ), (0 : ℝ))] < 2
    unfold lineDist
    rw [exMut_distScan]
    norm_num
  obtain ⟨j, rj, ds, hji, hrowj, hgj, hlenj, hmin, hrel, hout⟩ :=
    hmain ⟨1,
      { river_name := "Chenab", geometry := some [((0 : ℝ), (0 : ℝ)), (2, 0)] },
      [((0 : ℝ), (0 : ℝ)), ((2 : ℝ), (0 : ℝ))], one_ne_zero, rfl, rfl,
      by norm_num, hld⟩
  have hjlt : j < exMut.length := by
    by_contra hc
    rw [List.getElem?_eq_none (Nat.le_of_not_lt hc)] at hrowj
    cases hrowj
  have hj1 : j = 1 := by
    have h2 : j < 2 := hjlt
    omega
  subst hj1
  have hrj : rj
      = { river_name := "Chenab", geometry := some [((0 : ℝ), (0 : ℝ)), (2, 0)] } := by
    have he : exMut[1]?
        = some { river_name := "Chenab"
                 geometry := some [((0 : ℝ), (0 : ℝ)), (2, 0)] } := rfl
    rw [he] at hrowj
    exact (Option.some_inj.mp hrowj).symm
  subst hrj
  have hds : ds = [((0 : ℝ), (0 : ℝ)), ((2 : ℝ), (0 : ℝ))] := by
    have hG : ({ river_name := "Chenab"
                 geometry := some [((0 : ℝ), (0 : ℝ)), (2, 0)] } : LineRow).geometry
        = some [((0 : ℝ), (0 : ℝ)), ((2 : ℝ), (0 : ℝ))] := rfl
    rw [hG] at hgj
    exact (Option.some_inj.mp hgj).symm
  subst hds
  rw [hout]
  have hn : nearestPt (([((0 : ℝ), (1 : ℝ)), (1, 1)] : List Point).getLastD (0, 0))
      [((0 : ℝ), (0 : ℝ)), ((2 : ℝ), (0 : ℝ))] = ((1 : ℝ), (0 : ℝ)) := by
    show nearestPt ((1 : ℝ), (1 : ℝ)) [((0 : ℝ), (0 : ℝ)), ((2 : ℝ), (0 : ℝ))]
      = ((1 : ℝ), (0 : ℝ))
    unfold nearestPt
    rw [exMut_distScan]
  rw [hn]
  rfl

end

end Canalytics
